import Mathlib

/-!
# The IAVL importer (`import.go`)

A shallow embedding of `Importer` (`newImporter`, `Close`, `Add`, `Commit`) and the
properties of the stack-based reconstruction of a tree from its post-order export.

The importer reaches a handful of collaborators that live outside `import.go`
(`Node._hash`, `Node.validate`, `Node.writeBytes`, the node database and its batch).
Their pure parts are gathered in `Env`; the stateful parts are small definitions over an
explicit heap (`World`), each marked where it is modelled from the specification.
-/

namespace Iavl

/-! ## Data model -/

/-- A Go `[]byte`: `none` is the nil slice, `some bs` a slice holding the bytes `bs`. -/
abbrev Slice := Option (List Nat)

/-- Go's `len` on a byte slice. -/
def Slice.len : Slice → Nat
  | none => 0
  | some bs => bs.length

/-- Two's-complement wrap of an integer into the range of Go's `int64`. -/
def wrap64 (x : Int) : Int := (x + 2 ^ 63) % 2 ^ 64 - 2 ^ 63

/-- The record `ExportNode` consumed by `Importer.Add`. -/
structure ExportNode where
  Key : Slice
  Value : Slice
  Version : Int
  Height : Int

/-- The in-memory `Node`. A `*Node` field is an `Option Node`, `none` being nil. -/
inductive Node where
  | mk (key value : Slice) (version height size : Int) (hash leftHash rightHash : Slice)
      (leftNode rightNode : Option Node)

namespace Node

def key : Node → Slice
  | mk k _ _ _ _ _ _ _ _ _ => k

def value : Node → Slice
  | mk _ v _ _ _ _ _ _ _ _ => v

def version : Node → Int
  | mk _ _ v _ _ _ _ _ _ _ => v

def height : Node → Int
  | mk _ _ _ h _ _ _ _ _ _ => h

def size : Node → Int
  | mk _ _ _ _ s _ _ _ _ _ => s

def hash : Node → Slice
  | mk _ _ _ _ _ h _ _ _ _ => h

def leftHash : Node → Slice
  | mk _ _ _ _ _ _ lh _ _ _ => lh

def rightHash : Node → Slice
  | mk _ _ _ _ _ _ _ rh _ _ => rh

def leftNode : Node → Option Node
  | mk _ _ _ _ _ _ _ _ l _ => l

def rightNode : Node → Option Node
  | mk _ _ _ _ _ _ _ _ _ r => r

/-- Assignment to the field `hash`. -/
def setHash : Node → Slice → Node
  | mk k v ver h s _ lh rh l r, x => mk k v ver h s x lh rh l r

/-- Assignment to the field `size`. -/
def setSize : Node → Int → Node
  | mk k v ver h _ hs lh rh l r, x => mk k v ver h x hs lh rh l r

/-- Assignment to `leftNode` together with `leftHash`. -/
def setLeft : Node → Option Node → Slice → Node
  | mk k v ver h s hs _ rh _ r, l, lh => mk k v ver h s hs lh rh l r

/-- Assignment to `rightNode` together with `rightHash`. -/
def setRight : Node → Option Node → Slice → Node
  | mk k v ver h s hs lh _ l _, r, rh => mk k v ver h s hs lh rh l r

end Node

/-- The `hash` read through a `*Node` that may be nil. -/
def ptrHash (p : Option Node) : Slice := p.bind Node.hash

/-- Test `p.height < h` through a `*Node`; it is only evaluated behind a length guard. -/
def ptrHeightLt (p : Option Node) (h : Int) : Bool :=
  match p with
  | some n => decide (n.height < h)
  | none => false

/-- Errors returned by the importer and its collaborators. -/
inductive Err where
  /-- The sentinel `ErrNoImport`, "no import in progress". -/
  | ErrNoImport
  /-- The error "node cannot be nil". -/
  | nilNode
  /-- The error "node version %v can not be greater than import version %v". -/
  | versionTooHigh (nodeVersion importVersion : Int)
  /-- The error "invalid node structure, found stack size %v when finalizing". -/
  | invalidStructure (stackSize : Nat)
  /-- The error "imported version cannot be negative". -/
  | negativeVersion
  /-- The error "found database at version %d, must be 0". -/
  | foundDatabase (latestVersion : Int)
  /-- The error "tree must be empty". -/
  | notEmpty
  /-- An error of `Node.validate`. -/
  | validation (rule : Nat)
  /-- An error passed through from a collaborator (serialisation, store). -/
  | external (code : Nat)
  deriving DecidableEq

/-- One buffered write `key → value` of a `db.Batch`. -/
abbrev Write := Slice × Slice

/-- Modelled from the spec: `db.Batch` of tm-db, which is not in `import.go`; the pending
atomic write batch is the sequence of buffered writes, oldest first. -/
structure Batch where
  ops : List Write

/-- Modelled from the spec: `Batch.Set`, buffering one write, not yet durable. -/
def Batch.Set (b : Batch) (k v : Slice) : Batch := ⟨b.ops ++ [(k, v)]⟩

/-- Modelled from the spec: `Batch.Close`, discarding the pending writes. -/
def Batch.Close (_b : Batch) : Batch := ⟨[]⟩

/-- The node database: the latest-version marker and the durable contents of `snapshotDB`,
kept as the sequence of writes made visible so far (a later write of a key shadows an
earlier one). -/
structure nodeDB where
  latestVersion : Int
  snapshotDB : List Write

structure ImmutableTree where
  root : Option Node
  version : Int

/-- The Tree Handle. Go embeds `*ImmutableTree`; `versions` is the `map[int64]bool`, read
with Go's default `false` for a missing key. -/
structure MutableTree extends ImmutableTree where
  lastSaved : ImmutableTree
  versions : Int → Bool
  ndb : nodeDB

/-- The pure parts of the collaborators of `import.go` that are not in the source file. -/
structure Env where
  /-- The digest behind `Node._hash`, over (height, size, version, key, leftHash, rightHash,
  value-if-leaf). -/
  digest : Int → Int → Int → Slice → Slice → Slice → Slice → List Nat
  /-- The key rule of `Node.validate`. -/
  keyOk : Node → Bool
  /-- The serialiser `Node.writeBytes` into a fresh buffer. -/
  writeBytes : Node → Except Err (List Nat)
  nodeKey : Slice → Slice
  rootKey : Int → Slice
  /-- The query `MutableTree.IsEmpty`. -/
  IsEmpty : MutableTree → Bool
  /-- Whether `WriteSync` of the given writes fails on the given store contents. -/
  writeFault : List Write → List Write → Option Err
  /-- Whether reading the given key fails on the given store contents. -/
  readFault : List Write → Slice → Option Err
  /-- The node fetch by hash `nodeDB.GetNode`. -/
  GetNode : nodeDB → Slice → Option Node
  /-- The snapshot loader `MutableTree.GetImmutable`. -/
  GetImmutable : MutableTree → Int → Except Err ImmutableTree

/-- Modelled from the spec: `Node._hash`, which is not in `import.go`. The hash is a
deterministic function of height, size, version, key, the two child hashes, and the value
only when the height is 0; it is stored in the node. -/
def Node._hash (env : Env) (n : Node) : Node :=
  n.setHash (some (env.digest n.height n.size n.version n.key n.leftHash n.rightHash
    (if n.height = 0 then n.value else none)))

/-- Modelled from the spec: `Node.validate`, which is not in `import.go`. Structural
self-consistency: height is 0 exactly when both children are absent, and size is at least 1.
The key rule of the spec ("non-empty unless this is the sole root of an otherwise empty
tree") depends on context outside the node and is the parameter `keyOk`. -/
def Node.validate (env : Env) (n : Node) : Option Err :=
  if decide (n.height = 0) != (n.leftNode.isNone && n.rightNode.isNone) then
    some (Err.validation 1)
  else if n.size < 1 then some (Err.validation 2)
  else if env.keyOk n then none
  else some (Err.validation 3)

/-- Modelled from the spec: `Batch.WriteSync`, flushing atomically: on failure the store is
unmodified, on success all buffered writes become visible together. -/
def WriteSync (env : Env) (store : List Write) (b : Batch) : Except Err (List Write) :=
  match env.writeFault store b.ops with
  | some e => Except.error e
  | none => Except.ok (store ++ b.ops)

/-- The value visible under a key: the last write of that key, nil when there is none. -/
def lookup (store : List Write) (k : Slice) : Slice :=
  match store.reverse.find? (fun w => decide (w.1 = k)) with
  | some w => w.2
  | none => none

/-- Modelled from the spec: `nodeDB.updateLatestVersion`, advancing the latest-version
marker to the target version. -/
def nodeDB.updateLatestVersion (ndb : nodeDB) (version : Int) : nodeDB :=
  { ndb with latestVersion := version }

/-- Modelled from the spec: `nodeDB.getRoot`, the root-hash fetch by version. -/
def nodeDB.getRoot (env : Env) (ndb : nodeDB) (version : Int) : Except Err Slice :=
  match env.readFault ndb.snapshotDB (env.rootKey version) with
  | some e => Except.error e
  | none => Except.ok (lookup ndb.snapshotDB (env.rootKey version))

/-! ## The importer -/

/-- The address of the one `MutableTree` on the heap. -/
inductive TreeRef where
  | ref
  deriving DecidableEq

/-- The struct `Importer`; `tree = none` is the nil pointer of a closed importer. -/
structure Importer where
  tree : Option TreeRef
  version : Int
  batch : Batch
  stack : List Node

/-- The heap seen by the importer: the tree its `tree` field points to, and itself. -/
structure World where
  mtree : MutableTree
  imp : Importer

/-- The function `newImporter`. It returns its result next to the tree it was given. -/
def newImporter (env : Env) (tree : MutableTree) (version : Int) :
    Except Err Importer × MutableTree :=
  if version < 0 then (Except.error Err.negativeVersion, tree)
  else if tree.ndb.latestVersion > 0 then
    (Except.error (Err.foundDatabase tree.ndb.latestVersion), tree)
  else if !env.IsEmpty tree then (Except.error Err.notEmpty, tree)
  else
    (Except.ok { tree := some TreeRef.ref, version := version, batch := ⟨[]⟩, stack := [] },
      tree)

/-- The method `Importer.Close`. -/
def Close (w : World) : World :=
  { w with imp := { w.imp with batch := w.imp.batch.Close, tree := none } }

/-- The first switch of `Add`: the children of the new node are chosen by comparing
heights with the top of the stack; the stack itself is not modified. -/
def attachChildren (stack : List Node) (node : Node) : Node :=
  let stackSize := stack.length
  if stackSize ≥ 2 ∧ ptrHeightLt stack[stackSize - 1]? node.height
      ∧ ptrHeightLt stack[stackSize - 2]? node.height then
    (node.setLeft stack[stackSize - 2]? (ptrHash stack[stackSize - 2]?)).setRight
      stack[stackSize - 1]? (ptrHash stack[stackSize - 1]?)
  else if stackSize ≥ 1 ∧ ptrHeightLt stack[stackSize - 1]? node.height then
    node.setLeft stack[stackSize - 1]? (ptrHash stack[stackSize - 1]?)
  else node

/-- The size computation of `Add`: 1 for height 0, plus the sizes of the children that are
present, in `int64` arithmetic. -/
def computeSize (node : Node) : Node :=
  let node := if node.height = 0 then node.setSize 1 else node
  let node :=
    match node.leftNode with
    | some l => node.setSize (wrap64 (node.size + l.size))
    | none => node
  match node.rightNode with
  | some r => node.setSize (wrap64 (node.size + r.size))
  | none => node

/-- The node `Add` builds from a record on a given stack, up to and including
`node._hash()`. -/
def buildNode (env : Env) (stack : List Node) (exportNode : ExportNode) : Node :=
  let node := Node.mk exportNode.Key exportNode.Value exportNode.Version exportNode.Height 0
    none none none none none
  (computeSize (attachChildren stack node))._hash env

/-- The method `Importer.Add`; `exportNode = none` is the nil record. The result is the
returned error (`none` for nil) and the heap after the call. -/
def Add (env : Env) (w : World) (exportNode : Option ExportNode) : Option Err × World :=
  match w.imp.tree with
  | none => (some Err.ErrNoImport, w)
  | some _ =>
    match exportNode with
    | none => (some Err.nilNode, w)
    | some e =>
      if e.Version > w.imp.version then
        (some (Err.versionTooHigh e.Version w.imp.version), w)
      else
        let stackSize := w.imp.stack.length
        let node := buildNode env w.imp.stack e
        match node.validate env with
        | some err => (some err, w)
        | none =>
          match env.writeBytes node with
          | Except.error err => (some err, w)
          | Except.ok buf =>
            let batch := w.imp.batch.Set (env.nodeKey node.hash) (some buf)
            let stack :=
              if node.leftHash ≠ none ∧ node.rightHash ≠ none then
                w.imp.stack.take (stackSize - 2)
              else if node.leftHash ≠ none ∨ node.rightHash ≠ none then
                w.imp.stack.take (stackSize - 1)
              else w.imp.stack
            (none, { w with imp := { w.imp with batch := batch, stack := stack ++ [node] } })

/-- The part of `Importer.Commit` after the switch on the stack size: flush the batch,
publish the version on the Tree Handle, free the importer. -/
def commitFlush (env : Env) (w : World) : Option Err × World :=
  let version := w.imp.version
  match WriteSync env w.mtree.ndb.snapshotDB w.imp.batch with
  | Except.error err => (some err, w)
  | Except.ok store =>
    let ndb := nodeDB.updateLatestVersion { w.mtree.ndb with snapshotDB := store } version
    let w := { w with mtree := { w.mtree with ndb := ndb } }
    match ndb.getRoot env version with
    | Except.error err => (some err, w)
    | Except.ok root =>
      let t := w.mtree
      let t := if root.len > 0 then { t with root := env.GetNode ndb root } else t
      let t := { t with versions := Function.update t.versions version true }
      let t := { t with version := version }
      let w := { w with mtree := t }
      if root.len > 0 then
        match env.GetImmutable t version with
        | Except.error err => (some err, w)
        | Except.ok last => (none, Close { w with mtree := { t with lastSaved := last } })
      else (none, Close w)

/-- The method `Importer.Commit`. The result is the returned error (`none` for nil) and the
heap after the call. -/
def Commit (env : Env) (w : World) : Option Err × World :=
  match w.imp.tree with
  | none => (some Err.ErrNoImport, w)
  | some _ =>
    if w.imp.stack.length = 1 then
      commitFlush env { w with imp := { w.imp with
        batch := w.imp.batch.Set (env.rootKey w.imp.version) (ptrHash w.imp.stack[0]?) } }
    else if w.imp.stack.length > 2 then
      (some (Err.invalidStructure w.imp.stack.length), w)
    else commitFlush env w

/-- Feeding a sequence of records to `Add`, one call per record, whatever each call returns:
the returned errors in order and the final heap. -/
def AddAll (env : Env) : World → List (Option ExportNode) → List (Option Err) × World
  | w, [] => ([], w)
  | w, r :: rs =>
    let res := Add env w r
    let rest := AddAll env res.2 rs
    (res.1 :: rest.1, rest.2)

/-- The children attached to a node, left first. -/
def Node.children (n : Node) : List Node := n.leftNode.toList ++ n.rightNode.toList

/-- A heap holding a fresh importer for `tree`, as created by `newImporter`. -/
def Fresh (env : Env) (w : World) : Prop :=
  ∃ version, newImporter env w.mtree version = (Except.ok w.imp, w.mtree)

/-- The heaps reachable from a fresh importer by calls of `Add`. -/
def Reachable (env : Env) (w : World) : Prop :=
  ∃ w0 rs, Fresh env w0 ∧ w = (AddAll env w0 rs).2

/-- The batch `Commit` hands to `WriteSync`: the pending batch, with the root-pointer write
when the stack holds exactly one node. -/
def flushBatch (env : Env) (w : World) : Batch :=
  if w.imp.stack.length = 1 then
    w.imp.batch.Set (env.rootKey w.imp.version) (ptrHash w.imp.stack[0]?)
  else w.imp.batch

/-- The stack `Add` leaves on success: the entries consumed as children are popped, decided
by the child hashes of the new node, and the node is pushed. -/
def nextStack (stack : List Node) (node : Node) : List Node :=
  (if node.leftHash ≠ none ∧ node.rightHash ≠ none then stack.take (stack.length - 2)
   else if node.leftHash ≠ none ∨ node.rightHash ≠ none then stack.take (stack.length - 1)
   else stack) ++ [node]

/-- Modelled from the spec: the export stream of a tree, which `import.go` only consumes:
one record per node, in depth-first post-order (left subtree, right subtree, node). -/
def Node.postOrder : Node → List ExportNode
  | Node.mk k v ver h _ _ _ _ l r =>
    (match l with
      | none => []
      | some l => l.postOrder)
    ++ (match r with
      | none => []
      | some r => r.postOrder)
    ++ [⟨k, v, ver, h⟩]

/-- What holds of a single node of a tree that was exported at version `V`: its stored hash
is the digest of its fields, it passes validation, it serialises, and its version is at
most `V`. -/
def Node.Sound (env : Env) (V : Int) (n : Node) : Prop :=
  n._hash env = n ∧ n.validate env = none ∧ (∃ buf, env.writeBytes n = Except.ok buf)
    ∧ n.version ≤ V

/-- The trees of the round trip: every leaf has height 0, size 1 and no child hash; every
internal node has two children, a height strictly greater than both children's heights, the
sum of their sizes as size and their hashes as child hashes; and every node is `Sound`. -/
def Node.WellFormed (env : Env) (V : Int) : Node → Prop
  | Node.mk k v ver h sz hs lh rh none none =>
    h = 0 ∧ sz = 1 ∧ lh = none ∧ rh = none
      ∧ (Node.mk k v ver h sz hs lh rh none none).Sound env V
  | Node.mk k v ver h sz hs lh rh (some l) (some r) =>
    l.height < h ∧ r.height < h ∧ sz = l.size + r.size ∧ lh = l.hash ∧ rh = r.hash
      ∧ (Node.mk k v ver h sz hs lh rh (some l) (some r)).Sound env V
      ∧ l.WellFormed env V ∧ r.WellFormed env V
  | Node.mk _ _ _ _ _ _ _ _ (some _) none => False
  | Node.mk _ _ _ _ _ _ _ _ none (some _) => False

/-- A node together with all its descendants, the node itself first. -/
def Node.nodes : Node → List Node
  | Node.mk k v ver h sz hs lh rh l r =>
    Node.mk k v ver h sz hs lh rh l r ::
      ((match l with
        | none => []
        | some l => l.nodes)
      ++ (match r with
        | none => []
        | some r => r.nodes))

/-- The size read through a `*Node`: an absent child contributes 0. -/
def ptrSize (p : Option Node) : Int :=
  match p with
  | some n => n.size
  | none => 0

/-- The invariants of a single reconstructed node. -/
def Node.Consistent (n : Node) : Prop :=
  0 ≤ n.height
    ∧ (n.height = 0 ↔ n.leftNode = none ∧ n.rightNode = none)
    ∧ 1 ≤ n.size ∧ n.size < 2 ^ 63
    ∧ n.size = (if n.height = 0 then 1 else ptrSize n.leftNode + ptrSize n.rightNode)
    ∧ (∀ c ∈ n.children, c.height < n.height)
    ∧ n.hash ≠ none ∧ n.leftHash = ptrHash n.leftNode ∧ n.rightHash = ptrHash n.rightNode

/-- The invariant of the importer: every node below the stack is consistent and has its
write in the pending batch. -/
def StackInv (env : Env) (w : World) : Prop :=
  ∀ n ∈ w.imp.stack, ∀ m ∈ n.nodes,
    m.Consistent ∧ (∃ v, (env.nodeKey m.hash, v) ∈ w.imp.batch.ops)
      ∧ ∀ c ∈ m.children, ∃ v, (env.nodeKey c.hash, v) ∈ w.imp.batch.ops

/-- The size `Add` starts from: 1 for a record of height 0, else 0. -/
def baseSize (e : ExportNode) : Int := if e.Height = 0 then 1 else 0

/-- The first case of the switch of `Add`, in words: the stack has at least two entries and
the top two both have height below `h`. -/
def TopTwoBelow (stack : List Node) (h : Int) : Prop :=
  2 ≤ stack.length ∧ ∃ a b, stack[stack.length - 2]? = some a
    ∧ stack[stack.length - 1]? = some b ∧ a.height < h ∧ b.height < h

/-- The second case of the switch of `Add`, in words: the stack has at least one entry and
the top one has height below `h`. -/
def TopBelow (stack : List Node) (h : Int) : Prop :=
  1 ≤ stack.length ∧ ∃ b, stack[stack.length - 1]? = some b ∧ b.height < h

/-- The number of records of height 0 on which `Add` succeeded, given the records fed and
the results returned, in order. -/
def leafSuccesses : List (Option ExportNode) → List (Option Err) → Nat
  | some e :: rs, none :: es => (if e.Height = 0 then 1 else 0) + leafSuccesses rs es
  | _ :: rs, _ :: es => leafSuccesses rs es
  | _, _ => 0

/-- The sum of the sizes of the nodes on the stack. -/
def stackSize (w : World) : Int := (w.imp.stack.map Node.size).sum

/-! ## Concrete collaborators and inputs used to evaluate the code -/

/-- An injective encoding of an integer as a natural number. -/
def encInt (x : Int) : Nat := if x < 0 then 2 * x.natAbs + 1 else 2 * x.natAbs

/-- A length-prefixed encoding of a slice. -/
def encSlice : Slice → List Nat
  | none => [0]
  | some bs => (bs.length + 1) :: bs

/-- A concrete set of collaborators: the digest and the serialiser are encodings of their
arguments, no key is refused, the store never fails. -/
def demoEnv : Env where
  digest h s v k lh rh val :=
    [encInt h, encInt s, encInt v] ++ encSlice k ++ encSlice lh ++ encSlice rh ++ encSlice val
  keyOk _ := true
  writeBytes n := Except.ok ([encInt n.height, encInt n.size, encInt n.version]
    ++ encSlice n.key ++ encSlice n.leftHash ++ encSlice n.rightHash ++ encSlice n.value)
  nodeKey h := some (110 :: encSlice h)
  rootKey v := some [114, encInt v]
  IsEmpty t := t.root.isNone
  writeFault _ _ := none
  readFault _ _ := none
  GetNode _ h := some (Node.mk none none 0 0 0 h none none none none)
  GetImmutable t v := Except.ok ⟨t.root, v⟩

/-- The collaborators of `demoEnv` with a store whose reads fail. -/
def readFailEnv : Env := { demoEnv with readFault := fun _ _ => some (Err.external 5) }

/-- The collaborators of `demoEnv` with a snapshot loader that fails. -/
def loadFailEnv : Env := { demoEnv with GetImmutable := fun _ _ => Except.error (Err.external 7) }

/-- An empty tree over an empty store. -/
def emptyTree : MutableTree :=
  { root := none, version := 0, lastSaved := ⟨none, 0⟩, versions := fun _ => false,
    ndb := ⟨0, []⟩ }

/-- The fresh importer for `emptyTree` at target version 5. -/
def demoWorld : World :=
  { mtree := emptyTree,
    imp := { tree := some TreeRef.ref, version := 5, batch := ⟨[]⟩, stack := [] } }

def recA : ExportNode := ⟨some [97], some [49], 3, 0⟩

def recB : ExportNode := ⟨some [98], some [50], 5, 0⟩

def recC : ExportNode := ⟨some [99], some [51], 5, 0⟩

def recM : ExportNode := ⟨some [109], none, 5, 1⟩

/-- The scenario of the specification: target 5, records a/v3/h0, b/v5/h0, m/v5/h1. -/
def scenarioWorld : World := (AddAll demoEnv demoWorld [some recA, some recB, some recM]).2

/-- The leaf built from `recA`. -/
def leafA : Node := (Node.mk (some [97]) (some [49]) 3 0 1 none none none none none)._hash demoEnv

/-- The leaf built from `recB`. -/
def leafB : Node := (Node.mk (some [98]) (some [50]) 5 0 1 none none none none none)._hash demoEnv

/-- The leaf built from `recC`. -/
def leafC : Node := (Node.mk (some [99]) (some [51]) 5 0 1 none none none none none)._hash demoEnv

/-- The root of the scenario: `m` over the leaves `a` and `b`. -/
def rootM : Node :=
  (Node.mk (some [109]) none 5 1 2 none leafA.hash leafB.hash (some leafA) (some leafB))._hash
    demoEnv

/-- The height-1 node of the stream P1, over the leaves `b` and `c`. -/
def p1Inner : Node :=
  (Node.mk (some [99]) none 5 1 2 none leafB.hash leafC.hash (some leafB) (some leafC))._hash
    demoEnv

/-- The tree of the stream P1: root(left = a, right = node(left = b, right = c)). -/
def p1Root : Node :=
  (Node.mk (some [98]) none 5 2 3 none leafA.hash p1Inner.hash (some leafA) (some p1Inner))._hash
    demoEnv

/-- A node of height 1 whose only child is the leaf `b`, on the left. -/
def onlyLeftX : Node :=
  (Node.mk (some [120]) none 5 1 1 none leafB.hash none (some leafB) none)._hash demoEnv

/-- A tree with a single-child node: root of height 2 with left leaf `a` and right child
`onlyLeftX`. -/
def lopsidedRoot : Node :=
  (Node.mk (some [98]) none 5 2 2 none leafA.hash onlyLeftX.hash (some leafA)
    (some onlyLeftX))._hash demoEnv

/-- What the records of `onlyLeftX` are rebuilt into: both leaves `a` and `b` as children. -/
def rebuiltX : Node :=
  (Node.mk (some [120]) none 5 1 2 none leafA.hash leafB.hash (some leafA) (some leafB))._hash
    demoEnv

/-- What the records of `lopsidedRoot` are rebuilt into: `rebuiltX` as the only child. -/
def rebuiltRoot : Node :=
  (Node.mk (some [98]) none 5 2 2 none rebuiltX.hash none (some rebuiltX) none)._hash demoEnv

/-- Two leaves added and nothing else: a final stack of size 2. -/
def twoLeavesWorld : World := (AddAll demoEnv demoWorld [some recA, some recB]).2

/-- Three leaves added and nothing else: a final stack of size 3. -/
def threeLeavesWorld : World :=
  (AddAll demoEnv demoWorld [some recA, some recB, some recC]).2

/-! ## Basic facts about `Add` -/

theorem Add_closed (env : Env) (w : World) (r : Option ExportNode) (h : w.imp.tree = none) :
    Add env w r = (some Err.ErrNoImport, w) := by
  simp [Add, h]

theorem Commit_closed (env : Env) (w : World) (h : w.imp.tree = none) :
    Commit env w = (some Err.ErrNoImport, w) := by
  simp [Commit, h]

theorem Add_nil (env : Env) (w : World) (t : TreeRef) (h : w.imp.tree = some t) :
    Add env w none = (some Err.nilNode, w) := by
  simp [Add, h]

theorem Add_version_high (env : Env) (w : World) (t : TreeRef) (e : ExportNode)
    (h : w.imp.tree = some t) (hv : e.Version > w.imp.version) :
    Add env w (some e) = (some (Err.versionTooHigh e.Version w.imp.version), w) := by
  simp [Add, h, hv]

theorem Add_invalid (env : Env) (w : World) (t : TreeRef) (e : ExportNode) (err : Err)
    (h : w.imp.tree = some t) (hv : ¬ e.Version > w.imp.version)
    (hval : (buildNode env w.imp.stack e).validate env = some err) :
    Add env w (some e) = (some err, w) := by
  simp [Add, h, hv, hval]

theorem Add_unserialisable (env : Env) (w : World) (t : TreeRef) (e : ExportNode) (err : Err)
    (h : w.imp.tree = some t) (hv : ¬ e.Version > w.imp.version)
    (hval : (buildNode env w.imp.stack e).validate env = none)
    (hwb : env.writeBytes (buildNode env w.imp.stack e) = Except.error err) :
    Add env w (some e) = (some err, w) := by
  simp [Add, h, hv, hval, hwb]

theorem Add_ok (env : Env) (w : World) (t : TreeRef) (e : ExportNode) (buf : List Nat)
    (h : w.imp.tree = some t) (hv : ¬ e.Version > w.imp.version)
    (hval : (buildNode env w.imp.stack e).validate env = none)
    (hwb : env.writeBytes (buildNode env w.imp.stack e) = Except.ok buf) :
    Add env w (some e) = (none, { w with imp := { w.imp with
      batch := w.imp.batch.Set (env.nodeKey (buildNode env w.imp.stack e).hash) (some buf),
      stack := nextStack w.imp.stack (buildNode env w.imp.stack e) } }) := by
  simp [Add, h, hv, hval, hwb, nextStack]

/-- On every path of `Add` that returns an error the heap is returned as it was. -/
theorem Add_error_heap (env : Env) (w : World) (r : Option ExportNode) (e : Err)
    (h : (Add env w r).1 = some e) : (Add env w r).2 = w := by
  cases ht : w.imp.tree with
  | none => rw [Add_closed env w r ht]
  | some t =>
    cases r with
    | none => rw [Add_nil env w t ht]
    | some x =>
      by_cases hv : x.Version > w.imp.version
      · rw [Add_version_high env w t x ht hv]
      · cases hval : (buildNode env w.imp.stack x).validate env with
        | some err => rw [Add_invalid env w t x err ht hv hval]
        | none =>
          cases hwb : env.writeBytes (buildNode env w.imp.stack x) with
          | error err => rw [Add_unserialisable env w t x err ht hv hval hwb]
          | ok buf => rw [Add_ok env w t x buf ht hv hval hwb] at h; simp at h

/-- A successful `Add` was given a record, on an open importer, whose node passed validation
and serialisation; the heap afterwards is the one of `Add_ok`. -/
theorem Add_success_inv (env : Env) (w : World) (r : Option ExportNode)
    (h : (Add env w r).1 = none) :
    ∃ t e buf, w.imp.tree = some t ∧ r = some e ∧ ¬ e.Version > w.imp.version
      ∧ (buildNode env w.imp.stack e).validate env = none
      ∧ env.writeBytes (buildNode env w.imp.stack e) = Except.ok buf
      ∧ (Add env w r).2 = { w with imp := { w.imp with
          batch := w.imp.batch.Set (env.nodeKey (buildNode env w.imp.stack e).hash) (some buf),
          stack := nextStack w.imp.stack (buildNode env w.imp.stack e) } } := by
  cases ht : w.imp.tree with
  | none => rw [Add_closed env w r ht] at h; simp at h
  | some t =>
    cases r with
    | none => rw [Add_nil env w t ht] at h; simp at h
    | some x =>
      by_cases hv : x.Version > w.imp.version
      · rw [Add_version_high env w t x ht hv] at h; simp at h
      · cases hval : (buildNode env w.imp.stack x).validate env with
        | some err => rw [Add_invalid env w t x err ht hv hval] at h; simp at h
        | none =>
          cases hwb : env.writeBytes (buildNode env w.imp.stack x) with
          | error err => rw [Add_unserialisable env w t x err ht hv hval hwb] at h; simp at h
          | ok buf =>
            exact ⟨t, x, buf, rfl, rfl, hv, hval, hwb, by rw [Add_ok env w t x buf ht hv hval hwb]⟩

/-! ## The node built by `Add` -/

section fields
variable (n : Node) (x : Slice) (i : Int) (p : Option Node)

@[simp]
theorem Node.key_setHash : (n.setHash x).key = n.key := by cases n; rfl
@[simp]
theorem Node.leftHash_setHash : (n.setHash x).leftHash = n.leftHash := by cases n; rfl
@[simp]
theorem Node.rightHash_setHash : (n.setHash x).rightHash = n.rightHash := by cases n; rfl
@[simp]
theorem Node.leftNode_setHash : (n.setHash x).leftNode = n.leftNode := by cases n; rfl
@[simp]
theorem Node.rightNode_setHash : (n.setHash x).rightNode = n.rightNode := by cases n; rfl
@[simp]
theorem Node.hash_setHash : (n.setHash x).hash = x := by cases n; rfl
@[simp]
theorem Node.height_setHash : (n.setHash x).height = n.height := by cases n; rfl
@[simp]
theorem Node.size_setHash : (n.setHash x).size = n.size := by cases n; rfl
@[simp]
theorem Node.leftHash_setSize : (n.setSize i).leftHash = n.leftHash := by cases n; rfl
@[simp]
theorem Node.rightHash_setSize : (n.setSize i).rightHash = n.rightHash := by cases n; rfl
@[simp]
theorem Node.leftNode_setSize : (n.setSize i).leftNode = n.leftNode := by cases n; rfl
@[simp]
theorem Node.rightNode_setSize : (n.setSize i).rightNode = n.rightNode := by cases n; rfl
@[simp]
theorem Node.height_setSize : (n.setSize i).height = n.height := by cases n; rfl
@[simp]
theorem Node.size_setSize : (n.setSize i).size = i := by cases n; rfl
@[simp]
theorem Node.height_setLeft : (n.setLeft p x).height = n.height := by cases n; rfl
@[simp]
theorem Node.height_setRight : (n.setRight p x).height = n.height := by cases n; rfl
@[simp]
theorem Node.leftNode_setLeft : (n.setLeft p x).leftNode = p := by cases n; rfl
@[simp]
theorem Node.leftHash_setLeft : (n.setLeft p x).leftHash = x := by cases n; rfl
@[simp]
theorem Node.rightNode_setLeft : (n.setLeft p x).rightNode = n.rightNode := by cases n; rfl
@[simp]
theorem Node.rightHash_setLeft : (n.setLeft p x).rightHash = n.rightHash := by cases n; rfl
@[simp]
theorem Node.rightNode_setRight : (n.setRight p x).rightNode = p := by cases n; rfl
@[simp]
theorem Node.rightHash_setRight : (n.setRight p x).rightHash = x := by cases n; rfl
@[simp]
theorem Node.leftNode_setRight : (n.setRight p x).leftNode = n.leftNode := by cases n; rfl
@[simp]
theorem Node.leftHash_setRight : (n.setRight p x).leftHash = n.leftHash := by cases n; rfl

end fields

theorem stack_top_two (s : List Node) (a b : Node) :
    (s ++ [a, b])[(s ++ [a, b]).length - 1]? = some b
      ∧ (s ++ [a, b])[(s ++ [a, b]).length - 2]? = some a := by
  constructor
  · rw [List.getElem?_append_right (by simp)]
    simp
  · rw [List.getElem?_append_right (by simp)]
    simp

theorem attachChildren_nil (node : Node) : attachChildren [] node = node := by
  simp [attachChildren]

theorem attachChildren_one (b node : Node) :
    attachChildren [b] node
      = if b.height < node.height then node.setLeft (some b) b.hash else node := by
  simp [attachChildren, ptrHeightLt, ptrHash]

theorem attachChildren_two (s : List Node) (a b node : Node) :
    attachChildren (s ++ [a, b]) node
      = if b.height < node.height ∧ a.height < node.height then
          (node.setLeft (some a) a.hash).setRight (some b) b.hash
        else if b.height < node.height then node.setLeft (some b) b.hash
        else node := by
  unfold attachChildren
  simp only [(stack_top_two s a b).1, (stack_top_two s a b).2]
  simp [ptrHeightLt, ptrHash]

theorem attachChildren_cases (stack : List Node) (node : Node) :
    (∃ s a b, stack = s ++ [a, b] ∧ a.height < node.height ∧ b.height < node.height
        ∧ attachChildren stack node = (node.setLeft (some a) a.hash).setRight (some b) b.hash)
      ∨ (∃ s b, stack = s ++ [b] ∧ b.height < node.height
        ∧ attachChildren stack node = node.setLeft (some b) b.hash)
      ∨ attachChildren stack node = node := by
  rcases List.eq_nil_or_concat stack with rfl | ⟨s1, b, rfl⟩
  · exact Or.inr (Or.inr (attachChildren_nil node))
  · rcases List.eq_nil_or_concat s1 with rfl | ⟨s2, a, rfl⟩
    · have e : ([] : List Node).concat b = [b] := rfl
      rw [e, attachChildren_one]
      by_cases hb : b.height < node.height
      · exact Or.inr (Or.inl ⟨[], b, rfl, hb, by simp [hb]⟩)
      · exact Or.inr (Or.inr (by simp [hb]))
    · have e : (s2.concat a).concat b = s2 ++ [a, b] := by simp
      rw [e]
      by_cases hb : b.height < node.height
      · by_cases ha : a.height < node.height
        · exact Or.inl ⟨s2, a, b, rfl, ha, hb, by rw [attachChildren_two]; simp [ha, hb]⟩
        · exact Or.inr (Or.inl ⟨s2 ++ [a], b, by simp, hb,
            by rw [attachChildren_two]; simp [ha, hb]⟩)
      · exact Or.inr (Or.inr (by rw [attachChildren_two]; simp [hb]))


theorem computeSize_eq (n : Node) : computeSize n = n.setSize (computeSize n).size := by
  cases n with
  | mk k v ver h sz hs lh rh l r =>
    cases l <;> cases r <;> by_cases h0 : h = 0 <;>
      simp [computeSize, Node.height, Node.setSize, Node.leftNode, Node.rightNode, Node.size, h0]

/-- The node a record starts as, before any child is attached. -/
theorem buildNode_eq (env : Env) (stack : List Node) (e : ExportNode) :
    buildNode env stack e
      = (computeSize (attachChildren stack
          (Node.mk e.Key e.Value e.Version e.Height 0 none none none none none)))._hash env :=
  rfl

theorem buildNode_fields (env : Env) (stack : List Node) (e : ExportNode) :
    (buildNode env stack e).leftNode = (attachChildren stack
        (Node.mk e.Key e.Value e.Version e.Height 0 none none none none none)).leftNode
      ∧ (buildNode env stack e).rightNode = (attachChildren stack
        (Node.mk e.Key e.Value e.Version e.Height 0 none none none none none)).rightNode
      ∧ (buildNode env stack e).leftHash = (attachChildren stack
        (Node.mk e.Key e.Value e.Version e.Height 0 none none none none none)).leftHash
      ∧ (buildNode env stack e).rightHash = (attachChildren stack
        (Node.mk e.Key e.Value e.Version e.Height 0 none none none none none)).rightHash
      ∧ (buildNode env stack e).hash ≠ none := by
  rw [buildNode_eq, computeSize_eq]
  simp [Node._hash]

/-- On a stack whose nodes all carry a hash, the entries `Add` pops are exactly the children
it attached to the new node. -/
theorem nextStack_buildNode (env : Env) (stack : List Node) (e : ExportNode)
    (hh : ∀ n ∈ stack, n.hash ≠ none) :
    (buildNode env stack e).children.length ≤ 2
      ∧ stack = stack.take (stack.length - (buildNode env stack e).children.length)
          ++ (buildNode env stack e).children
      ∧ nextStack stack (buildNode env stack e)
          = stack.take (stack.length - (buildNode env stack e).children.length)
            ++ [buildNode env stack e] := by
  obtain ⟨h1, h2, h3, h4, _⟩ := buildNode_fields env stack e
  unfold nextStack Node.children
  rw [h1, h2, h3, h4]
  have l0 : (Node.mk e.Key e.Value e.Version e.Height 0 none none none none none).leftNode
      = none := rfl
  have r0 : (Node.mk e.Key e.Value e.Version e.Height 0 none none none none none).rightNode
      = none := rfl
  have lh0 : (Node.mk e.Key e.Value e.Version e.Height 0 none none none none none).leftHash
      = none := rfl
  have rh0 : (Node.mk e.Key e.Value e.Version e.Height 0 none none none none none).rightHash
      = none := rfl
  generalize Node.mk e.Key e.Value e.Version e.Height 0 none none none none none = node0
    at l0 r0 lh0 rh0 ⊢
  rcases attachChildren_cases stack node0 with ⟨s, a, b, rfl, _, _, hc⟩ | ⟨s, b, rfl, _, hc⟩ | hc
  · have ha : a.hash ≠ none := hh a (by simp)
    have hb : b.hash ≠ none := hh b (by simp)
    rw [hc]
    simp [ha, hb]
  · have hb : b.hash ≠ none := hh b (by simp)
    rw [hc]
    simp [hb, r0, rh0]
  · rw [hc]
    simp [l0, r0, lh0, rh0]

/-! ## Errors of `Add` -/

/-- C3. `Add` is atomic on error: whenever `Add` returns an error (closed importer, nil
record, version too high, validation failure, serialisation failure), the stack and the
pending batch, and indeed the whole heap, are exactly what they were before the call. -/
theorem Add_atomic_on_error (env : Env) (w : World) (r : Option ExportNode) (e : Err)
    (h : (Add env w r).1 = some e) :
    (Add env w r).2.imp.stack = w.imp.stack ∧ (Add env w r).2.imp.batch = w.imp.batch
      ∧ (Add env w r).2 = w := by
  have hw := Add_error_heap env w r e h
  exact ⟨by rw [hw], by rw [hw], hw⟩

/-- Witness for C3: on the scenario heap a record of version 6 is refused, and the heap is
unchanged. -/
theorem Add_atomic_on_error_witness :
    (Add demoEnv scenarioWorld (some ⟨some [100], some [52], 6, 0⟩)).1
        = some (Err.versionTooHigh 6 5)
      ∧ (Add demoEnv scenarioWorld (some ⟨some [100], some [52], 6, 0⟩)).2 = scenarioWorld :=
  ⟨by decide,
    (Add_atomic_on_error demoEnv scenarioWorld (some ⟨some [100], some [52], 6, 0⟩)
      (Err.versionTooHigh 6 5) (by decide)).2.2⟩

/-- C4. Version bound: on an open importer with target version `V`, a record with
`version > V` makes `Add` return an error and leaves the heap (stack and batch included)
untouched; a record with `version ≤ V` is never refused for its version: `Add` then returns
exactly the verdict of validation, else of serialisation, on the node it built. -/
theorem Add_version_bound (env : Env) (w : World) (t : TreeRef) (r : ExportNode)
    (hopen : w.imp.tree = some t) :
    (r.Version > w.imp.version →
        (Add env w (some r)).1 = some (Err.versionTooHigh r.Version w.imp.version)
          ∧ (Add env w (some r)).2.imp.stack = w.imp.stack
          ∧ (Add env w (some r)).2.imp.batch = w.imp.batch
          ∧ (Add env w (some r)).2 = w)
      ∧ (r.Version ≤ w.imp.version →
        (Add env w (some r)).1 =
          match (buildNode env w.imp.stack r).validate env with
          | some err => some err
          | none =>
            match env.writeBytes (buildNode env w.imp.stack r) with
            | Except.error err => some err
            | Except.ok _ => none) := by
  constructor
  · intro hv
    rw [Add_version_high env w t r hopen hv]
    exact ⟨rfl, rfl, rfl, rfl⟩
  · intro hv
    have hv2 : ¬ r.Version > w.imp.version := not_lt.mpr hv
    cases hval : (buildNode env w.imp.stack r).validate env with
    | some err => rw [Add_invalid env w t r err hopen hv2 hval]
    | none =>
      cases hwb : env.writeBytes (buildNode env w.imp.stack r) with
      | error err => rw [Add_unserialisable env w t r err hopen hv2 hval hwb]
      | ok buf => rw [Add_ok env w t r buf hopen hv2 hval hwb]

/-- Witness for C4: with target 5, a leaf of version 6 is refused and the heap kept, while a
leaf of version exactly 5 is accepted. -/
theorem Add_version_bound_witness :
    (Add demoEnv demoWorld (some ⟨some [100], some [52], 6, 0⟩)).2 = demoWorld
      ∧ (Add demoEnv demoWorld (some recB)).1 = none :=
  ⟨((Add_version_bound demoEnv demoWorld TreeRef.ref ⟨some [100], some [52], 6, 0⟩ rfl).1
      (by decide)).2.2.2,
    ((Add_version_bound demoEnv demoWorld TreeRef.ref recB rfl).2 (by decide)).trans
      (by decide)⟩

/-! ## Initialisation -/

/-- C8. `newImporter` returns an error exactly when the version is negative, or the latest
version of the store is greater than 0, or the tree is not empty; otherwise it returns an
importer bound to the tree, with the given target version, an empty stack and a fresh
batch; in all cases the tree is left as it was. -/
theorem newImporter_fails_iff (env : Env) (tree : MutableTree) (version : Int) :
    ((∃ e, (newImporter env tree version).1 = Except.error e) ↔
        (version < 0 ∨ tree.ndb.latestVersion > 0 ∨ env.IsEmpty tree = false))
      ∧ (¬ (version < 0 ∨ tree.ndb.latestVersion > 0 ∨ env.IsEmpty tree = false) →
        (newImporter env tree version).1 = Except.ok
          { tree := some TreeRef.ref, version := version, batch := ⟨[]⟩, stack := [] })
      ∧ (newImporter env tree version).2 = tree := by
  unfold newImporter
  by_cases h1 : version < 0
  · simp [h1]
  · by_cases h2 : tree.ndb.latestVersion > 0
    · simp [h1, h2]
    · cases h3 : env.IsEmpty tree <;> simp [h1, h2, h3]

/-- Witness for C8: on the empty tree at version 5 none of the three conditions holds, and
the fresh importer is returned. -/
theorem newImporter_fails_iff_witness :
    (newImporter demoEnv emptyTree 5).1 = Except.ok demoWorld.imp :=
  (newImporter_fails_iff demoEnv emptyTree 5).2.1 (by decide)


/-! ## Facts about `Commit` -/

theorem commitFlush_write_error (env : Env) (w : World) (e : Err)
    (hws : WriteSync env w.mtree.ndb.snapshotDB w.imp.batch = Except.error e) :
    commitFlush env w = (some e, w) := by
  simp [commitFlush, hws]

theorem commitFlush_read_error (env : Env) (w : World) (store : List Write) (e : Err)
    (hws : WriteSync env w.mtree.ndb.snapshotDB w.imp.batch = Except.ok store)
    (hrd : env.readFault store (env.rootKey w.imp.version) = some e) :
    commitFlush env w
      = (some e, { w with mtree := { w.mtree with ndb := ⟨w.imp.version, store⟩ } }) := by
  simp [commitFlush, hws, nodeDB.getRoot, nodeDB.updateLatestVersion, hrd]

theorem commitFlush_no_root (env : Env) (w : World) (store : List Write)
    (hws : WriteSync env w.mtree.ndb.snapshotDB w.imp.batch = Except.ok store)
    (hrd : env.readFault store (env.rootKey w.imp.version) = none)
    (hlen : ¬ (lookup store (env.rootKey w.imp.version)).len > 0) :
    commitFlush env w
      = (none, Close { w with mtree := { w.mtree with
          version := w.imp.version,
          versions := Function.update w.mtree.versions w.imp.version true,
          ndb := ⟨w.imp.version, store⟩ } }) := by
  simp [commitFlush, hws, nodeDB.getRoot, nodeDB.updateLatestVersion, hrd, hlen]

theorem commitFlush_load_error (env : Env) (w : World) (store : List Write) (e : Err)
    (hws : WriteSync env w.mtree.ndb.snapshotDB w.imp.batch = Except.ok store)
    (hrd : env.readFault store (env.rootKey w.imp.version) = none)
    (hlen : (lookup store (env.rootKey w.imp.version)).len > 0)
    (hld : env.GetImmutable { w.mtree with
        root := env.GetNode ⟨w.imp.version, store⟩ (lookup store (env.rootKey w.imp.version)),
        version := w.imp.version,
        versions := Function.update w.mtree.versions w.imp.version true,
        ndb := ⟨w.imp.version, store⟩ } w.imp.version = Except.error e) :
    commitFlush env w
      = (some e, { w with mtree := { w.mtree with
          root := env.GetNode ⟨w.imp.version, store⟩ (lookup store (env.rootKey w.imp.version)),
          version := w.imp.version,
          versions := Function.update w.mtree.versions w.imp.version true,
          ndb := ⟨w.imp.version, store⟩ } }) := by
  simp [commitFlush, hws, nodeDB.getRoot, nodeDB.updateLatestVersion, hrd, hlen, hld]

theorem commitFlush_loaded (env : Env) (w : World) (store : List Write) (last : ImmutableTree)
    (hws : WriteSync env w.mtree.ndb.snapshotDB w.imp.batch = Except.ok store)
    (hrd : env.readFault store (env.rootKey w.imp.version) = none)
    (hlen : (lookup store (env.rootKey w.imp.version)).len > 0)
    (hld : env.GetImmutable { w.mtree with
        root := env.GetNode ⟨w.imp.version, store⟩ (lookup store (env.rootKey w.imp.version)),
        version := w.imp.version,
        versions := Function.update w.mtree.versions w.imp.version true,
        ndb := ⟨w.imp.version, store⟩ } w.imp.version = Except.ok last) :
    commitFlush env w
      = (none, Close { w with mtree := { w.mtree with
          root := env.GetNode ⟨w.imp.version, store⟩ (lookup store (env.rootKey w.imp.version)),
          version := w.imp.version,
          lastSaved := last,
          versions := Function.update w.mtree.versions w.imp.version true,
          ndb := ⟨w.imp.version, store⟩ } }) := by
  simp [commitFlush, hws, nodeDB.getRoot, nodeDB.updateLatestVersion, hrd, hlen, hld]

/-- The five ways through `commitFlush`. -/
theorem commitFlush_cases (env : Env) (w : World) :
    (∃ e, WriteSync env w.mtree.ndb.snapshotDB w.imp.batch = Except.error e
        ∧ commitFlush env w = (some e, w))
      ∨ (∃ store e, WriteSync env w.mtree.ndb.snapshotDB w.imp.batch = Except.ok store
        ∧ env.readFault store (env.rootKey w.imp.version) = some e
        ∧ commitFlush env w
          = (some e, { w with mtree := { w.mtree with ndb := ⟨w.imp.version, store⟩ } }))
      ∨ (∃ store, WriteSync env w.mtree.ndb.snapshotDB w.imp.batch = Except.ok store
        ∧ env.readFault store (env.rootKey w.imp.version) = none
        ∧ commitFlush env w
          = (none, Close { w with mtree := { w.mtree with
              version := w.imp.version,
              versions := Function.update w.mtree.versions w.imp.version true,
              ndb := ⟨w.imp.version, store⟩ } }))
      ∨ (∃ store e, WriteSync env w.mtree.ndb.snapshotDB w.imp.batch = Except.ok store
        ∧ env.readFault store (env.rootKey w.imp.version) = none
        ∧ commitFlush env w
          = (some e, { w with mtree := { w.mtree with
              root := env.GetNode ⟨w.imp.version, store⟩
                (lookup store (env.rootKey w.imp.version)),
              version := w.imp.version,
              versions := Function.update w.mtree.versions w.imp.version true,
              ndb := ⟨w.imp.version, store⟩ } }))
      ∨ (∃ store last, WriteSync env w.mtree.ndb.snapshotDB w.imp.batch = Except.ok store
        ∧ env.readFault store (env.rootKey w.imp.version) = none
        ∧ commitFlush env w
          = (none, Close { w with mtree := { w.mtree with
              root := env.GetNode ⟨w.imp.version, store⟩
                (lookup store (env.rootKey w.imp.version)),
              version := w.imp.version,
              lastSaved := last,
              versions := Function.update w.mtree.versions w.imp.version true,
              ndb := ⟨w.imp.version, store⟩ } })) := by
  cases hws : WriteSync env w.mtree.ndb.snapshotDB w.imp.batch with
  | error e => exact Or.inl ⟨e, rfl, commitFlush_write_error env w e hws⟩
  | ok store =>
    cases hrd : env.readFault store (env.rootKey w.imp.version) with
    | some e => exact Or.inr (Or.inl ⟨store, e, rfl, hrd, commitFlush_read_error env w store e hws hrd⟩)
    | none =>
      by_cases hlen : (lookup store (env.rootKey w.imp.version)).len > 0
      · cases hld : env.GetImmutable { w.mtree with
            root := env.GetNode ⟨w.imp.version, store⟩ (lookup store (env.rootKey w.imp.version)),
            version := w.imp.version,
            versions := Function.update w.mtree.versions w.imp.version true,
            ndb := ⟨w.imp.version, store⟩ } w.imp.version with
        | error e =>
          exact Or.inr (Or.inr (Or.inr (Or.inl
            ⟨store, e, rfl, hrd, commitFlush_load_error env w store e hws hrd hlen hld⟩)))
        | ok last =>
          exact Or.inr (Or.inr (Or.inr (Or.inr
            ⟨store, last, rfl, hrd, commitFlush_loaded env w store last hws hrd hlen hld⟩)))
      · exact Or.inr (Or.inr (Or.inl ⟨store, rfl, hrd, commitFlush_no_root env w store hws hrd hlen⟩))

/-- The tree pointer after `commitFlush`: nil on success, untouched on error. -/
theorem commitFlush_tree (env : Env) (w : World) :
    ((commitFlush env w).1 = none → (commitFlush env w).2.imp.tree = none)
      ∧ (∀ e, (commitFlush env w).1 = some e → (commitFlush env w).2.imp.tree = w.imp.tree) := by
  rcases commitFlush_cases env w with ⟨e, _, h⟩ | ⟨store, e, _, _, h⟩ | ⟨store, _, _, h⟩
    | ⟨store, e, _, _, h⟩ | ⟨store, last, _, _, h⟩ <;> rw [h] <;> simp [Close]

theorem Commit_structural (env : Env) (w : World) (t : TreeRef) (h : w.imp.tree = some t)
    (hlen : 2 < w.imp.stack.length) :
    Commit env w = (some (Err.invalidStructure w.imp.stack.length), w) := by
  have h1 : ¬ w.imp.stack.length = 1 := by omega
  simp [Commit, h, h1, hlen]

theorem Commit_open (env : Env) (w : World) (t : TreeRef) (h : w.imp.tree = some t)
    (hlen : ¬ 2 < w.imp.stack.length) :
    Commit env w = commitFlush env { w with imp := { w.imp with batch := flushBatch env w } } := by
  by_cases h1 : w.imp.stack.length = 1
  · simp [Commit, h, h1, flushBatch]
  · have e : ({ w with imp := { w.imp with batch := flushBatch env w } } : World) = w := by
      unfold flushBatch
      rw [if_neg h1]
    rw [e]
    simp [Commit, h, h1, hlen]

/-- The tree pointer after `Commit`: nil on success, untouched on error. -/
theorem Commit_tree (env : Env) (w : World) :
    ((Commit env w).1 = none → (Commit env w).2.imp.tree = none)
      ∧ (∀ e, (Commit env w).1 = some e → (Commit env w).2.imp.tree = w.imp.tree) := by
  cases ht : w.imp.tree with
  | none => rw [Commit_closed env w ht]; simp [ht]
  | some t =>
    by_cases hlen : 2 < w.imp.stack.length
    · rw [Commit_structural env w t ht hlen]; simp [ht]
    · rw [Commit_open env w t ht hlen]
      have := commitFlush_tree env { w with imp := { w.imp with batch := flushBatch env w } }
      simpa [ht] using this

/-- On a closed importer every call of `Add` in a sequence returns `ErrNoImport` and the
heap stays as it is. -/
theorem AddAll_closed (env : Env) (w : World) (h : w.imp.tree = none)
    (rs : List (Option ExportNode)) :
    AddAll env w rs = (List.replicate rs.length (some Err.ErrNoImport), w) := by
  induction rs with
  | nil => rfl
  | cons r rs ih => simp [AddAll, Add_closed env w r h, ih, List.replicate_succ]

/-! ## Closed importers -/

/-- C10. A closed importer is permanently unusable: after `Close`, and likewise after a
`Commit` that returned no error, every call of `Add` with any record (also every call in any
sequence of calls) and every call of `Commit` returns `ErrNoImport` and leaves the whole
heap, hence the stack, the batch and the tree, unchanged. -/
theorem closed_importer_unusable (env : Env) (w : World) :
    ((∀ r, Add env (Close w) r = (some Err.ErrNoImport, Close w))
        ∧ Commit env (Close w) = (some Err.ErrNoImport, Close w)
        ∧ ∀ rs, AddAll env (Close w) rs
            = (List.replicate rs.length (some Err.ErrNoImport), Close w))
      ∧ ∀ w', Commit env w = (none, w') →
        (∀ r, Add env w' r = (some Err.ErrNoImport, w'))
          ∧ Commit env w' = (some Err.ErrNoImport, w')
          ∧ ∀ rs, AddAll env w' rs = (List.replicate rs.length (some Err.ErrNoImport), w') := by
  refine ⟨⟨fun r => Add_closed env _ r rfl, Commit_closed env _ rfl,
    fun rs => AddAll_closed env _ rfl rs⟩, ?_⟩
  intro w' hc
  have ht : w'.imp.tree = none := by
    have := (Commit_tree env w).1
    rw [hc] at this
    exact this rfl
  exact ⟨fun r => Add_closed env w' r ht, Commit_closed env w' ht,
    fun rs => AddAll_closed env w' ht rs⟩

/-- Witness for C10: on the scenario heap `Commit` succeeds, and the importer it leaves
refuses a further record and a further `Commit` with `ErrNoImport`, keeping the heap. -/
theorem closed_importer_unusable_witness :
    (Commit demoEnv scenarioWorld).1 = none
      ∧ Add demoEnv (Commit demoEnv scenarioWorld).2 (some recC)
          = (some Err.ErrNoImport, (Commit demoEnv scenarioWorld).2)
      ∧ Commit demoEnv (Commit demoEnv scenarioWorld).2
          = (some Err.ErrNoImport, (Commit demoEnv scenarioWorld).2) :=
  have hs : (Commit demoEnv scenarioWorld).1 = none := by decide
  have h := (closed_importer_unusable demoEnv scenarioWorld).2 (Commit demoEnv scenarioWorld).2
    (Prod.ext hs rfl)
  ⟨hs, h.1 (some recC), h.2.1⟩

/-! ## Commit -/

/-- C2, evaluated on the code. With target version 5, after `Add` of the two leaves `a` and
`b` the stack holds two nodes; `Commit` then returns no error, flushes the two node writes
without any root pointer, advances the latest-version marker from 0 to 5 and frees the
importer: the guard `len(i.stack) > 2` lets the size 2 through. -/
theorem Commit_stack_of_two_accepted :
    twoLeavesWorld.imp.stack.length = 2
      ∧ twoLeavesWorld.imp.tree = some TreeRef.ref
      ∧ (Commit demoEnv twoLeavesWorld).1 = none
      ∧ twoLeavesWorld.mtree.ndb.latestVersion = 0
      ∧ (Commit demoEnv twoLeavesWorld).2.mtree.ndb.latestVersion = 5
      ∧ twoLeavesWorld.mtree.ndb.snapshotDB = []
      ∧ (Commit demoEnv twoLeavesWorld).2.mtree.ndb.snapshotDB.map Prod.fst
          = [demoEnv.nodeKey leafA.hash, demoEnv.nodeKey leafB.hash]
      ∧ lookup (Commit demoEnv twoLeavesWorld).2.mtree.ndb.snapshotDB (demoEnv.rootKey 5) = none
      ∧ (Commit demoEnv twoLeavesWorld).2.imp.tree = none := by
  decide

/-- Counterexample to C9. With three leaves on the stack `Commit` returns the structural
error and does not free the importer: the importer is still open, and a second `Commit`
returns the structural error again, not `ErrNoImport`. -/
theorem Commit_not_freed_on_error :
    (Commit demoEnv threeLeavesWorld).1 = some (Err.invalidStructure 3)
      ∧ (Commit demoEnv threeLeavesWorld).2.imp.tree = some TreeRef.ref
      ∧ (Commit demoEnv (Commit demoEnv threeLeavesWorld).2).1 = some (Err.invalidStructure 3)
      ∧ (Commit demoEnv (Commit demoEnv threeLeavesWorld).2).1 ≠ some Err.ErrNoImport := by
  decide

/-- C9, amended. `Commit` is single-shot on success: once `Commit` has returned without an
error the importer is freed, and every later call of `Commit`, however many, returns
`ErrNoImport` and changes nothing; a `Commit` that returns an error leaves the importer's
tree pointer as it was, so an open importer stays open. -/
theorem Commit_single_shot (env : Env) (w : World) :
    ((Commit env w).1 = none →
        (Commit env w).2.imp.tree = none
          ∧ ∀ k : Nat, Commit env ((fun x => (Commit env x).2)^[k] (Commit env w).2)
              = (some Err.ErrNoImport, (Commit env w).2))
      ∧ ∀ e, (Commit env w).1 = some e → (Commit env w).2.imp.tree = w.imp.tree := by
  refine ⟨fun h => ?_, (Commit_tree env w).2⟩
  have ht := (Commit_tree env w).1 h
  refine ⟨ht, fun k => ?_⟩
  have hk : (fun x => (Commit env x).2)^[k] (Commit env w).2 = (Commit env w).2 := by
    induction k with
    | zero => rfl
    | succ k ih =>
      rw [Function.iterate_succ_apply', ih, Commit_closed env _ ht]
  rw [hk]
  exact Commit_closed env _ ht

/-- Witness for C9, amended: the scenario's `Commit` succeeds and frees the importer, and
the third call after it still returns `ErrNoImport`. -/
theorem Commit_single_shot_witness :
    (Commit demoEnv scenarioWorld).1 = none
      ∧ (Commit demoEnv scenarioWorld).2.imp.tree = none
      ∧ Commit demoEnv ((fun x => (Commit demoEnv x).2)^[2] (Commit demoEnv scenarioWorld).2)
          = (some Err.ErrNoImport, (Commit demoEnv scenarioWorld).2) :=
  have hs : (Commit demoEnv scenarioWorld).1 = none := by decide
  ⟨hs, ((Commit_single_shot demoEnv scenarioWorld).1 hs).1,
    ((Commit_single_shot demoEnv scenarioWorld).1 hs).2 2⟩

/-- Counterexample to C7. On the scenario heap, when the re-read of the root pointer fails
`Commit` returns that error after the latest-version marker has moved from 0 to 5; when the
load of the saved version fails `Commit` returns that error after the root, the version set
and the current version of the Tree Handle have been updated. -/
theorem Commit_error_after_publication :
    ((Commit readFailEnv scenarioWorld).1 = some (Err.external 5)
        ∧ scenarioWorld.mtree.ndb.latestVersion = 0
        ∧ (Commit readFailEnv scenarioWorld).2.mtree.ndb.latestVersion = 5)
      ∧ ((Commit loadFailEnv scenarioWorld).1 = some (Err.external 7)
        ∧ scenarioWorld.mtree.version = 0
        ∧ (Commit loadFailEnv scenarioWorld).2.mtree.version = 5
        ∧ scenarioWorld.mtree.versions 5 = false
        ∧ (Commit loadFailEnv scenarioWorld).2.mtree.versions 5 = true
        ∧ scenarioWorld.mtree.root.isSome = false
        ∧ (Commit loadFailEnv scenarioWorld).2.mtree.root.isSome = true) := by
  decide

/-- C7, amended. If `Commit` returns an error, the last-saved snapshot of the Tree Handle is
as before the call. If the error comes from the closed check, the check of the stack size or
the write of the batch, the whole Tree Handle (root, version set, current version,
last-saved snapshot) and the store with its latest-version marker are as before. If it comes
from the re-read of the root pointer, the root, the version set and the current version are
as before. -/
theorem Commit_error_frame (env : Env) (w : World) (e : Err)
    (h : (Commit env w).1 = some e) :
    (Commit env w).2.mtree.lastSaved = w.mtree.lastSaved
      ∧ ((w.imp.tree = none ∨ 2 < w.imp.stack.length
            ∨ ∃ e', WriteSync env w.mtree.ndb.snapshotDB (flushBatch env w) = Except.error e') →
          (Commit env w).2.mtree = w.mtree)
      ∧ ∀ store, WriteSync env w.mtree.ndb.snapshotDB (flushBatch env w) = Except.ok store →
          (∃ e', env.readFault store (env.rootKey w.imp.version) = some e') →
          (Commit env w).2.mtree.root = w.mtree.root
            ∧ (Commit env w).2.mtree.versions = w.mtree.versions
            ∧ (Commit env w).2.mtree.version = w.mtree.version := by
  cases ht : w.imp.tree with
  | none =>
    rw [Commit_closed env w ht]
    exact ⟨rfl, fun _ => rfl, fun _ _ _ => ⟨rfl, rfl, rfl⟩⟩
  | some t =>
    by_cases hlen : 2 < w.imp.stack.length
    · rw [Commit_structural env w t ht hlen]
      exact ⟨rfl, fun _ => rfl, fun _ _ _ => ⟨rfl, rfl, rfl⟩⟩
    · rw [Commit_open env w t ht hlen] at h ⊢
      rcases commitFlush_cases env { w with imp := { w.imp with batch := flushBatch env w } }
        with ⟨e1, hws, hc⟩ | ⟨store, e1, hws, hrd, hc⟩ | ⟨store, _, _, hc⟩
          | ⟨store, e1, hws, hrd, hc⟩ | ⟨store, last, _, _, hc⟩
      · rw [hc]
        refine ⟨rfl, fun _ => rfl, fun store hs _ => ?_⟩
        simp only [] at hws
        rw [hs] at hws
        cases hws
      · rw [hc]
        simp only [] at hws hrd
        refine ⟨rfl, fun hpre => ?_, fun _ _ _ => ⟨rfl, rfl, rfl⟩⟩
        rcases hpre with hn | hl | ⟨e', he'⟩
        · cases hn
        · exact absurd hl hlen
        · rw [he'] at hws; cases hws
      · rw [hc] at h; cases h
      · rw [hc]
        simp only [] at hws hrd
        refine ⟨rfl, fun hpre => ?_, fun store' hs hex => ?_⟩
        · rcases hpre with hn | hl | ⟨e', he'⟩
          · cases hn
          · exact absurd hl hlen
          · rw [he'] at hws; cases hws
        · rw [hs] at hws
          cases hws
          rcases hex with ⟨e', he'⟩
          rw [he'] at hrd
          cases hrd
      · rw [hc] at h; cases h

/-- Witness for C7, amended: with three leaves on the stack `Commit` returns the structural
error and the Tree Handle is exactly as before. -/
theorem Commit_error_frame_witness :
    (Commit demoEnv threeLeavesWorld).1 = some (Err.invalidStructure 3)
      ∧ (Commit demoEnv threeLeavesWorld).2.mtree = threeLeavesWorld.mtree :=
  have hs : (Commit demoEnv threeLeavesWorld).1 = some (Err.invalidStructure 3) := by decide
  ⟨hs, (Commit_error_frame demoEnv threeLeavesWorld _ hs).2.1 (Or.inr (Or.inl (by decide)))⟩

/-- C6. Effect of a successful `Commit`: on an open importer with target version `V` whose
stack holds exactly one node `n`, if the write of the batch, the re-read of the root pointer
and the load of the saved version succeed, then `Commit` returns no error, the store has
received the pending batch followed by the root-pointer write `rootKey(V) → n.hash`, the
latest-version marker is `V`, the version set of the tree contains `V`, the current version
of the tree is `V`, and the importer is closed. -/
theorem Commit_success (env : Env) (w : World) (t : TreeRef) (n : Node)
    (hopen : w.imp.tree = some t) (hstack : w.imp.stack = [n])
    (hwrite : env.writeFault w.mtree.ndb.snapshotDB
      (w.imp.batch.ops ++ [(env.rootKey w.imp.version, n.hash)]) = none)
    (hread : env.readFault (w.mtree.ndb.snapshotDB ++ w.imp.batch.ops
      ++ [(env.rootKey w.imp.version, n.hash)]) (env.rootKey w.imp.version) = none)
    (hload : ∀ tr, ∃ last, env.GetImmutable tr w.imp.version = Except.ok last) :
    (Commit env w).1 = none
      ∧ (Commit env w).2.mtree.ndb.snapshotDB
          = w.mtree.ndb.snapshotDB ++ w.imp.batch.ops ++ [(env.rootKey w.imp.version, n.hash)]
      ∧ (Commit env w).2.mtree.ndb.latestVersion = w.imp.version
      ∧ (Commit env w).2.mtree.versions w.imp.version = true
      ∧ (Commit env w).2.mtree.version = w.imp.version
      ∧ (Commit env w).2.imp.tree = none := by
  have hlen : ¬ 2 < w.imp.stack.length := by simp [hstack]
  have hfb : flushBatch env w = ⟨w.imp.batch.ops ++ [(env.rootKey w.imp.version, n.hash)]⟩ := by
    simp [flushBatch, hstack, Batch.Set, ptrHash]
  have hws : WriteSync env w.mtree.ndb.snapshotDB (flushBatch env w)
      = Except.ok (w.mtree.ndb.snapshotDB ++ (w.imp.batch.ops
          ++ [(env.rootKey w.imp.version, n.hash)])) := by
    rw [hfb]
    simp [WriteSync, hwrite]
  rw [← List.append_assoc] at hws
  rw [Commit_open env w t hopen hlen]
  generalize hst : w.mtree.ndb.snapshotDB ++ w.imp.batch.ops
    ++ [(env.rootKey w.imp.version, n.hash)] = store at hws hread
  by_cases hl : (lookup store (env.rootKey w.imp.version)).len > 0
  · obtain ⟨last, hld⟩ := hload { w.mtree with
      root := env.GetNode ⟨w.imp.version, store⟩ (lookup store (env.rootKey w.imp.version)),
      version := w.imp.version,
      versions := Function.update w.mtree.versions w.imp.version true,
      ndb := ⟨w.imp.version, store⟩ }
    rw [commitFlush_loaded env { w with imp := { w.imp with batch := flushBatch env w } }
      store last hws hread hl hld]
    simp [Close]
  · rw [commitFlush_no_root env { w with imp := { w.imp with batch := flushBatch env w } }
      store hws hread hl]
    simp [Close]

/-- Witness for C6, the scenario of the specification (target 5; records a/v3/h0, b/v5/h0,
m/v5/h1): the stack holds the one node `rootM`, of size 2 and height 1, with left key `a`
and right key `b`; `Commit` succeeds, the root pointer of version 5 reads back as the hash
of that node, and the latest version is 5. -/
theorem Commit_success_witness :
    scenarioWorld.imp.stack = [rootM]
      ∧ (rootM.size = 2 ∧ rootM.height = 1
        ∧ rootM.leftNode.map Node.key = some (some [97])
        ∧ rootM.rightNode.map Node.key = some (some [98]))
      ∧ (Commit demoEnv scenarioWorld).1 = none
      ∧ lookup (Commit demoEnv scenarioWorld).2.mtree.ndb.snapshotDB (demoEnv.rootKey 5)
          = rootM.hash
      ∧ (Commit demoEnv scenarioWorld).2.mtree.ndb.latestVersion = 5 :=
  have hs : scenarioWorld.imp.stack = [rootM] := by rfl
  have h := Commit_success demoEnv scenarioWorld TreeRef.ref rootM rfl hs rfl rfl
    (fun tr => ⟨_, rfl⟩)
  ⟨hs, by decide, h.1, by rw [h.2.1]; decide, h.2.2.1⟩

/-! ## Reachable heaps -/

theorem Fresh_imp (env : Env) (w : World) (h : Fresh env w) :
    ∃ version, w.imp
      = { tree := some TreeRef.ref, version := version, batch := ⟨[]⟩, stack := [] } := by
  obtain ⟨version, hv⟩ := h
  refine ⟨version, ?_⟩
  unfold newImporter at hv
  split_ifs at hv
  all_goals first
    | (simp only [Prod.mk.injEq, Except.ok.injEq] at hv; exact hv.1.symm)
    | (simp at hv)

theorem Add_stack_hashed (env : Env) (w : World) (r : Option ExportNode)
    (hh : ∀ n ∈ w.imp.stack, n.hash ≠ none) :
    ∀ n ∈ (Add env w r).2.imp.stack, n.hash ≠ none := by
  cases hres : (Add env w r).1 with
  | some e => rw [Add_error_heap env w r e hres]; exact hh
  | none =>
    obtain ⟨t, e, buf, _, _, _, _, _, hw⟩ := Add_success_inv env w r hres
    rw [hw]
    simp only []
    rw [(nextStack_buildNode env w.imp.stack e hh).2.2]
    intro n hn
    rcases List.mem_append.mp hn with h1 | h1
    · exact hh n (List.mem_of_mem_take h1)
    · rw [List.mem_singleton.mp h1]
      exact (buildNode_fields env w.imp.stack e).2.2.2.2

theorem AddAll_stack_hashed (env : Env) (rs : List (Option ExportNode)) :
    ∀ w : World, (∀ n ∈ w.imp.stack, n.hash ≠ none) →
      ∀ n ∈ (AddAll env w rs).2.imp.stack, n.hash ≠ none := by
  induction rs with
  | nil => intro w hh; exact hh
  | cons r rs ih =>
    intro w hh
    exact ih (Add env w r).2 (Add_stack_hashed env w r hh)

/-- In every heap reachable from a fresh importer, each node on the stack carries a hash. -/
theorem Reachable_stack_hashed (env : Env) (w : World) (h : Reachable env w) :
    ∀ n ∈ w.imp.stack, n.hash ≠ none := by
  obtain ⟨w0, rs, hf, rfl⟩ := h
  obtain ⟨version, hv⟩ := Fresh_imp env w0 hf
  exact AddAll_stack_hashed env rs w0 (by rw [hv]; simp)

/-- C5. Effect of a successful `Add`: in every heap reachable from a fresh importer by calls
of `Add`, when `Add` succeeds on a record the new node has `k ≤ 2` children, the top `k`
entries of the old stack are exactly those children, the new stack is the old one with
these `k` entries removed and the new node pushed, so the depth changes by `1 - k`; and the
batch gains exactly one write, `nodeKey(hash of the new node) → its serialised bytes`. -/
theorem Add_success_effect (env : Env) (w : World) (r : Option ExportNode)
    (hreach : Reachable env w) (hok : (Add env w r).1 = none) :
    ∃ e buf, r = some e
      ∧ env.writeBytes (buildNode env w.imp.stack e) = Except.ok buf
      ∧ (buildNode env w.imp.stack e).children.length ≤ 2
      ∧ w.imp.stack
          = w.imp.stack.take (w.imp.stack.length - (buildNode env w.imp.stack e).children.length)
            ++ (buildNode env w.imp.stack e).children
      ∧ (Add env w r).2.imp.stack
          = w.imp.stack.take (w.imp.stack.length - (buildNode env w.imp.stack e).children.length)
            ++ [buildNode env w.imp.stack e]
      ∧ ((Add env w r).2.imp.stack.length : Int)
          = w.imp.stack.length + (1 - (buildNode env w.imp.stack e).children.length)
      ∧ (Add env w r).2.imp.batch.ops
          = w.imp.batch.ops
            ++ [(env.nodeKey (buildNode env w.imp.stack e).hash, some buf)] := by
  obtain ⟨t, e, buf, _, hr, _, _, hwb, hw⟩ := Add_success_inv env w r hok
  have hh := Reachable_stack_hashed env w hreach
  obtain ⟨hk, hsplit, hnext⟩ := nextStack_buildNode env w.imp.stack e hh
  refine ⟨e, buf, hr, hwb, hk, hsplit, ?_, ?_, ?_⟩
  · rw [hw]
    exact hnext
  · rw [hw]
    simp only []
    rw [hnext]
    have hlen := congrArg List.length hsplit
    simp only [List.length_append, List.length_take, List.length_singleton] at hlen ⊢
    omega
  · rw [hw]
    rfl

/-- Witness for C5: after the leaves `a` and `b`, the record `m` of height 1 takes both as
children; the stack goes from depth 2 to depth 1 and the batch from 2 writes to 3. -/
theorem Add_success_effect_witness :
    twoLeavesWorld.imp.stack.length = 2
      ∧ (buildNode demoEnv twoLeavesWorld.imp.stack recM).children.length = 2
      ∧ (Add demoEnv twoLeavesWorld (some recM)).2.imp.stack
          = twoLeavesWorld.imp.stack.take
              (twoLeavesWorld.imp.stack.length
                - (buildNode demoEnv twoLeavesWorld.imp.stack recM).children.length)
            ++ [buildNode demoEnv twoLeavesWorld.imp.stack recM] :=
  have h := Add_success_effect demoEnv twoLeavesWorld (some recM)
    ⟨demoWorld, [some recA, some recB], ⟨5, rfl⟩, rfl⟩ (by decide)
  ⟨by decide, by decide, by
    obtain ⟨e, buf, he, _, _, _, h5, _⟩ := h
    cases he
    exact h5⟩

/-! ## The round trip -/

theorem AddAll_append (env : Env) (xs ys : List (Option ExportNode)) :
    ∀ w : World, AddAll env w (xs ++ ys)
      = ((AddAll env w xs).1 ++ (AddAll env (AddAll env w xs).2 ys).1,
          (AddAll env (AddAll env w xs).2 ys).2) := by
  induction xs with
  | nil => intro w; rfl
  | cons x xs ih => intro w; simp [AddAll, ih]

theorem AddAll_singleton (env : Env) (w : World) (x : Option ExportNode) :
    AddAll env w [x] = ([(Add env w x).1], (Add env w x).2) := rfl

theorem wrap64_eq (x : Int) (h1 : -2 ^ 63 ≤ x) (h2 : x < 2 ^ 63) : wrap64 x = x := by
  unfold wrap64
  norm_num at h1 h2 ⊢
  omega

theorem WellFormed_props (env : Env) (V : Int) :
    (T : Node) → T.WellFormed env V → 0 ≤ T.height ∧ 1 ≤ T.size ∧ T.hash ≠ none
  | Node.mk k v ver h sz hs lh rh none none, hT => by
    obtain ⟨h0, hs1, _, _, hsound, _⟩ := hT
    refine ⟨by simp [Node.height, h0], by simp [Node.size, hs1], ?_⟩
    rw [← hsound]
    simp [Node._hash]
  | Node.mk k v ver h sz hs lh rh (some l) (some r), hT => by
    obtain ⟨hl, hr, hsz, _, _, ⟨hsound, _⟩, hwl, hwr⟩ := hT
    have pl := WellFormed_props env V l hwl
    have pr := WellFormed_props env V r hwr
    refine ⟨?_, ?_, ?_⟩
    · simp only [Node.height]; omega
    · simp only [Node.size]; omega
    · rw [← hsound]
      simp [Node._hash]
  | Node.mk _ _ _ _ _ _ _ _ (some _) none, hT => False.elim hT
  | Node.mk _ _ _ _ _ _ _ _ none (some _), hT => False.elim hT


section mk
variable (k v : Slice) (ver h sz : Int) (hs lh rh : Slice) (l r : Option Node)

@[simp]
theorem Node.key_mk : (Node.mk k v ver h sz hs lh rh l r).key = k := rfl
@[simp]
theorem Node.value_mk : (Node.mk k v ver h sz hs lh rh l r).value = v := rfl
@[simp]
theorem Node.version_mk : (Node.mk k v ver h sz hs lh rh l r).version = ver := rfl
@[simp]
theorem Node.height_mk : (Node.mk k v ver h sz hs lh rh l r).height = h := rfl
@[simp]
theorem Node.size_mk : (Node.mk k v ver h sz hs lh rh l r).size = sz := rfl
@[simp]
theorem Node.hash_mk : (Node.mk k v ver h sz hs lh rh l r).hash = hs := rfl
@[simp]
theorem Node.leftHash_mk : (Node.mk k v ver h sz hs lh rh l r).leftHash = lh := rfl
@[simp]
theorem Node.rightHash_mk : (Node.mk k v ver h sz hs lh rh l r).rightHash = rh := rfl
@[simp]
theorem Node.leftNode_mk : (Node.mk k v ver h sz hs lh rh l r).leftNode = l := rfl
@[simp]
theorem Node.rightNode_mk : (Node.mk k v ver h sz hs lh rh l r).rightNode = r := rfl

end mk

theorem attachChildren_leaf (stack : List Node) (node : Node)
    (hh : ∀ n ∈ stack, 0 ≤ n.height) (h0 : node.height = 0) :
    attachChildren stack node = node := by
  rcases attachChildren_cases stack node with ⟨s, a, b, rfl, _, hb, _⟩ | ⟨s, b, rfl, hb, _⟩ | hc
  · have := hh b (by simp)
    omega
  · have := hh b (by simp)
    omega
  · exact hc

theorem buildNode_leaf (env : Env) (stack : List Node) (e : ExportNode)
    (hh : ∀ n ∈ stack, 0 ≤ n.height) (h0 : e.Height = 0) :
    buildNode env stack e
      = (Node.mk e.Key e.Value e.Version 0 1 none none none none none)._hash env := by
  rw [buildNode_eq, attachChildren_leaf stack _ hh (show (Node.mk e.Key e.Value e.Version e.Height
    0 none none none none none).height = 0 from h0), h0]
  rfl

theorem buildNode_inner (env : Env) (s : List Node) (l r : Node) (e : ExportNode)
    (hl : l.height < e.Height) (hr : r.height < e.Height) (h0 : 0 ≤ l.height)
    (hls : 1 ≤ l.size) (hrs : 1 ≤ r.size) (hsum : l.size + r.size < 2 ^ 63) :
    buildNode env (s ++ [l, r]) e
      = (Node.mk e.Key e.Value e.Version e.Height (l.size + r.size) none l.hash r.hash
          (some l) (some r))._hash env := by
  have hl' : l.height < (Node.mk e.Key e.Value e.Version e.Height 0 none none none none
      none).height := hl
  have hr' : r.height < (Node.mk e.Key e.Value e.Version e.Height 0 none none none none
      none).height := hr
  have hne : ¬ e.Height = 0 := by omega
  have w1 : wrap64 l.size = l.size := wrap64_eq _ (by norm_num; omega) (by omega)
  have w2 : wrap64 (l.size + r.size) = l.size + r.size :=
    wrap64_eq _ (by norm_num; omega) hsum
  rw [buildNode_eq, attachChildren_two, if_pos ⟨hr', hl'⟩]
  simp [computeSize, Node.setLeft, Node.setRight, Node.setSize, hne, w1, w2]

theorem nextStack_leaf (stack : List Node) (n : Node) (hl : n.leftHash = none)
    (hr : n.rightHash = none) : nextStack stack n = stack ++ [n] := by
  simp [nextStack, hl, hr]

theorem nextStack_inner (s : List Node) (l r n : Node) (hl : n.leftHash ≠ none)
    (hr : n.rightHash ≠ none) : nextStack (s ++ [l, r]) n = s ++ [n] := by
  simp [nextStack, hl, hr]

/-- Importing the post-order records of a well-formed subtree on top of any stack of nodes
of non-negative height succeeds at every record and pushes exactly that subtree. -/
theorem import_subtree (env : Env) (V : Int) :
    (T : Node) → T.WellFormed env V → T.size < 2 ^ 63 →
      ∀ (w : World) (t : TreeRef), w.imp.tree = some t → w.imp.version = V →
        (∀ n ∈ w.imp.stack, 0 ≤ n.height) →
        ∃ b, AddAll env w (T.postOrder.map some)
          = (List.replicate T.postOrder.length none,
              { w with imp := { w.imp with batch := b, stack := w.imp.stack ++ [T] } })
  | Node.mk k v ver h sz hs lh rh none none, hT, _, w, t, hopen, hV, hh => by
    obtain ⟨h0, hs1, hlh, hrh, hhash, hval, ⟨buf, hwb⟩, hver⟩ := hT
    subst h0 hs1 hlh hrh
    have hb : buildNode env w.imp.stack ⟨k, v, ver, 0⟩
        = Node.mk k v ver 0 1 hs none none none none := by
      rw [buildNode_leaf env w.imp.stack _ hh rfl, ← hhash]
      rfl
    have hv : ¬ (⟨k, v, ver, 0⟩ : ExportNode).Version > w.imp.version := by
      rw [hV]; exact not_lt.mpr hver
    have hadd := Add_ok env w t ⟨k, v, ver, 0⟩ buf hopen hv (by rw [hb]; exact hval)
      (by rw [hb]; exact hwb)
    rw [hb, nextStack_leaf w.imp.stack (Node.mk k v ver 0 1 hs none none none none) rfl rfl]
      at hadd
    exact ⟨w.imp.batch.Set (env.nodeKey hs) (some buf), by
      simp [Node.postOrder, AddAll, hadd]⟩
  | Node.mk k v ver h sz hs lh rh (some l) (some r), hT, hsz, w, t, hopen, hV, hh => by
    obtain ⟨hl, hr, hsize, hlh, hrh, ⟨hhash, hval, ⟨buf, hwb⟩, hver⟩, hwl, hwr⟩ := hT
    obtain ⟨l0, l1, l2⟩ := WellFormed_props env V l hwl
    obtain ⟨r0, r1, r2⟩ := WellFormed_props env V r hwr
    have hsz' : l.size + r.size < 2 ^ 63 := by rw [← hsize]; exact hsz
    obtain ⟨b1, e1⟩ := import_subtree env V l hwl (by omega) w t hopen hV hh
    obtain ⟨b2, e2⟩ := import_subtree env V r hwr (by omega)
      { w with imp := { w.imp with batch := b1, stack := w.imp.stack ++ [l] } } t hopen hV
      (by
        intro n hn
        rcases List.mem_append.mp hn with h1 | h1
        · exact hh n h1
        · rw [List.mem_singleton.mp h1]; exact l0)
    subst hsize hlh hrh
    have hb : buildNode env (w.imp.stack ++ [l, r]) ⟨k, v, ver, h⟩
        = Node.mk k v ver h (l.size + r.size) hs l.hash r.hash (some l) (some r) := by
      rw [buildNode_inner env w.imp.stack l r _ hl hr l0 l1 r1 hsz', ← hhash]
      rfl
    have hv : ¬ (⟨k, v, ver, h⟩ : ExportNode).Version > w.imp.version := by
      rw [hV]; exact not_lt.mpr hver
    have hadd := Add_ok env
      { w with imp := { w.imp with batch := b2, stack := w.imp.stack ++ [l, r] } } t
      ⟨k, v, ver, h⟩ buf hopen hv (by rw [hb]; exact hval) (by rw [hb]; exact hwb)
    simp only [] at hadd
    rw [hb, nextStack_inner w.imp.stack l r
      (Node.mk k v ver h (l.size + r.size) hs l.hash r.hash (some l) (some r)) l2 r2] at hadd
    refine ⟨b2.Set (env.nodeKey hs) (some buf), ?_⟩
    simp only [Node.postOrder, List.map_append, List.map_cons, List.map_nil]
    rw [AddAll_append, AddAll_append, e1, e2]
    simp only [List.append_assoc, List.singleton_append] at hadd ⊢
    rw [AddAll_singleton, hadd]
    simp only [List.length_append, List.length_singleton, List.replicate_add,
      List.replicate_one, Node.hash_mk]
  | Node.mk _ _ _ _ _ _ _ _ (some _) none, hT, _, _, _, _, _, _ => False.elim hT
  | Node.mk _ _ _ _ _ _ _ _ none (some _), hT, _, _, _, _, _, _ => False.elim hT


theorem leafA_wf : leafA.WellFormed demoEnv 5 :=
  ⟨rfl, rfl, rfl, rfl, rfl, rfl, ⟨_, rfl⟩, by decide⟩

theorem leafB_wf : leafB.WellFormed demoEnv 5 :=
  ⟨rfl, rfl, rfl, rfl, rfl, rfl, ⟨_, rfl⟩, by decide⟩

theorem leafC_wf : leafC.WellFormed demoEnv 5 :=
  ⟨rfl, rfl, rfl, rfl, rfl, rfl, ⟨_, rfl⟩, by decide⟩

theorem p1Inner_wf : p1Inner.WellFormed demoEnv 5 :=
  ⟨by decide, by decide, rfl, rfl, rfl, ⟨rfl, rfl, ⟨_, rfl⟩, by decide⟩, leafB_wf, leafC_wf⟩

theorem p1Root_wf : p1Root.WellFormed demoEnv 5 :=
  ⟨by decide, by decide, rfl, rfl, rfl, ⟨rfl, rfl, ⟨_, rfl⟩, by decide⟩, leafA_wf, p1Inner_wf⟩

/-- C1. Reconstruction round trip: for every tree `T` whose leaves have height 0, whose
internal nodes have two children and a height strictly greater than both children's, and
whose nodes all pass validation, serialise and have version at most the target version (`T`
carrying the sizes and hashes of the data model), feeding the post-order records of `T` to a
fresh importer succeeds at every step and leaves a stack of exactly one node, equal to `T`
in every field and child, hence with the root hash of `T`; with no records at all the stack
is empty. -/
theorem import_round_trip (env : Env) (w : World) (T : Node)
    (hfresh : Fresh env w) (hT : T.WellFormed env w.imp.version) (hsz : T.size < 2 ^ 63) :
    (AddAll env w (T.postOrder.map some)).1 = List.replicate T.postOrder.length none
      ∧ (AddAll env w (T.postOrder.map some)).2.imp.stack = [T]
      ∧ (AddAll env w (T.postOrder.map some)).2.imp.stack.map Node.hash = [T.hash]
      ∧ (AddAll env w []).2.imp.stack = [] := by
  obtain ⟨version, hv⟩ := Fresh_imp env w hfresh
  have hs : w.imp.stack = [] := by rw [hv]
  obtain ⟨b, hb⟩ := import_subtree env w.imp.version T hT hsz w TreeRef.ref (by rw [hv]) rfl
    (by rw [hs]; simp)
  rw [hb]
  simp [hs, AddAll]

/-- Witness for C1, the stream P1: leaves `a`, `b`, `c` at height 0, then a node of height
1, then a node of height 2. Every `Add` succeeds and the stack holds the single root
`root(left = a, right = node(left = b, right = c))`, of size 3. -/
theorem import_round_trip_witness :
    (p1Root.postOrder.map ExportNode.Height = [0, 0, 0, 1, 2]
        ∧ p1Root.postOrder.map ExportNode.Key
          = [some [97], some [98], some [99], some [99], some [98]])
      ∧ (AddAll demoEnv demoWorld (p1Root.postOrder.map some)).1
          = [none, none, none, none, none]
      ∧ (AddAll demoEnv demoWorld (p1Root.postOrder.map some)).2.imp.stack = [p1Root]
      ∧ p1Root.size = 3
      ∧ p1Root.leftNode.map Node.key = some (some [97])
      ∧ (p1Root.rightNode.bind Node.leftNode).map Node.key = some (some [98])
      ∧ (p1Root.rightNode.bind Node.rightNode).map Node.key = some (some [99]) :=
  have h := import_round_trip demoEnv demoWorld p1Root ⟨5, rfl⟩ p1Root_wf (by decide)
  ⟨by decide, h.1, h.2.1, by decide, by decide, by decide, by decide⟩

/-! ## The invariant of the stack -/

theorem Node.mem_nodes (m n : Node) :
    m ∈ n.nodes ↔ m = n ∨ (∃ l, n.leftNode = some l ∧ m ∈ l.nodes)
      ∨ (∃ r, n.rightNode = some r ∧ m ∈ r.nodes) := by
  cases n with
  | mk k v ver h sz hs lh rh l r =>
    cases l <;> cases r <;> simp [Node.nodes]

theorem Node.self_mem_nodes (n : Node) : n ∈ n.nodes :=
  (Node.mem_nodes n n).mpr (Or.inl rfl)

theorem buildNode_cases (env : Env) (stack : List Node) (e : ExportNode) :
    (∃ s a b, stack = s ++ [a, b] ∧ a.height < e.Height ∧ b.height < e.Height
        ∧ buildNode env stack e
          = (Node.mk e.Key e.Value e.Version e.Height
              (wrap64 (wrap64 (baseSize e + a.size) + b.size)) none a.hash b.hash
              (some a) (some b))._hash env)
      ∨ (∃ s b, stack = s ++ [b] ∧ b.height < e.Height
        ∧ buildNode env stack e
          = (Node.mk e.Key e.Value e.Version e.Height (wrap64 (baseSize e + b.size)) none
              b.hash none (some b) none)._hash env)
      ∨ buildNode env stack e
          = (Node.mk e.Key e.Value e.Version e.Height (baseSize e) none none none none
              none)._hash env := by
  rw [buildNode_eq]
  rcases attachChildren_cases stack
      (Node.mk e.Key e.Value e.Version e.Height 0 none none none none none)
    with ⟨s, a, b, hs, ha, hb, hc⟩ | ⟨s, b, hs, hb, hc⟩ | hc
  · refine Or.inl ⟨s, a, b, hs, ha, hb, ?_⟩
    rw [hc]
    by_cases h0 : e.Height = 0 <;>
      simp [computeSize, Node.setLeft, Node.setRight, Node.setSize, baseSize, h0]
  · refine Or.inr (Or.inl ⟨s, b, hs, hb, ?_⟩)
    rw [hc]
    by_cases h0 : e.Height = 0 <;>
      simp [computeSize, Node.setLeft, Node.setSize, baseSize, h0]
  · refine Or.inr (Or.inr ?_)
    rw [hc]
    by_cases h0 : e.Height = 0 <;>
      simp [computeSize, Node.setSize, baseSize, h0]


theorem wrap64_range (x : Int) : -2 ^ 63 ≤ wrap64 x ∧ wrap64 x < 2 ^ 63 := by
  unfold wrap64
  norm_num
  omega

theorem wrap64_add_of_pos (a b : Int) (ha : 0 ≤ a) (ha2 : a < 2 ^ 63) (hb : 0 ≤ b)
    (hb2 : b < 2 ^ 63) (h : 1 ≤ wrap64 (a + b)) : wrap64 (a + b) = a + b := by
  unfold wrap64 at h ⊢
  norm_num at ha2 hb2 h ⊢
  omega

/-- What a passed validation guarantees. -/
theorem validate_none (env : Env) (n : Node) (h : n.validate env = none) :
    (n.height = 0 ↔ n.leftNode = none ∧ n.rightNode = none) ∧ 1 ≤ n.size := by
  unfold Node.validate at h
  split_ifs at h with h1 h2 h3
  refine ⟨?_, by omega⟩
  cases hl : n.leftNode <;> cases hr : n.rightNode <;> by_cases h0 : n.height = 0 <;>
    simp [hl, hr, h0] at h1 ⊢

theorem buildNode_consistent (env : Env) (stack : List Node) (e : ExportNode)
    (hinv : ∀ n ∈ stack, n.Consistent)
    (hval : (buildNode env stack e).validate env = none) :
    (buildNode env stack e).Consistent := by
  obtain ⟨hiff, hsize⟩ := validate_none env _ hval
  rcases buildNode_cases env stack e with ⟨s, a, b, rfl, ha, hb, hc⟩ | ⟨s, b, rfl, hb, hc⟩ | hc
  · obtain ⟨a0, _, a1, a2, _⟩ := hinv a (by simp)
    obtain ⟨_, _, b1, b2, _⟩ := hinv b (by simp)
    rw [hc] at hiff hsize ⊢
    have hne : ¬ e.Height = 0 := by omega
    simp only [Node._hash, Node.size_setHash, Node.size_mk, baseSize, hne, if_false,
      zero_add] at hsize
    have w1 : wrap64 a.size = a.size := wrap64_eq _ (by norm_num; omega) a2
    rw [w1] at hsize
    have w2 := wrap64_add_of_pos a.size b.size (by omega) a2 (by omega) b2 hsize
    have hlt := (wrap64_range (a.size + b.size)).2
    rw [w2] at hlt
    have hsz : wrap64 (wrap64 (baseSize e + a.size) + b.size) = a.size + b.size := by
      rw [baseSize, if_neg hne, zero_add, w1, w2]
    rw [hsz]
    simp [Node.Consistent, Node._hash, Node.children, ptrSize, ptrHash, ha, hb, hne]
    norm_num at hlt
    exact ⟨by omega, by omega, hlt⟩
  · obtain ⟨b0, _, b1, b2, _⟩ := hinv b (by simp)
    rw [hc] at hiff hsize ⊢
    have hne : ¬ e.Height = 0 := by omega
    have w1 : wrap64 b.size = b.size := wrap64_eq _ (by norm_num; omega) b2
    have hsz : wrap64 (baseSize e + b.size) = b.size := by
      rw [baseSize, if_neg hne, zero_add, w1]
    rw [hsz]
    simp [Node.Consistent, Node._hash, Node.children, ptrSize, ptrHash, hb, hne]
    norm_num at b2
    exact ⟨by omega, b1, b2⟩
  · rw [hc] at hiff hsize ⊢
    have h0 : e.Height = 0 := by
      simpa [Node._hash] using hiff
    simp [Node.Consistent, Node._hash, Node.children, baseSize, h0, ptrSize, ptrHash]


/-- The children `Add` attaches are entries of the stack, lower than the declared height. -/
theorem buildNode_children (env : Env) (stack : List Node) (e : ExportNode) :
    (buildNode env stack e).height = e.Height
      ∧ ∀ c ∈ (buildNode env stack e).children, c ∈ stack ∧ c.height < e.Height := by
  rcases buildNode_cases env stack e with ⟨s, a, b, rfl, ha, hb, hc⟩ | ⟨s, b, rfl, hb, hc⟩ | hc
  · rw [hc]
    simp [Node._hash, Node.children, ha, hb]
  · rw [hc]
    simp [Node._hash, Node.children, hb]
  · rw [hc]
    simp [Node._hash, Node.children]

theorem Node.mem_nodes_of_child (m n : Node) (h : m ∈ n.nodes) :
    m = n ∨ ∃ c ∈ n.children, m ∈ c.nodes := by
  rcases (Node.mem_nodes m n).mp h with h1 | ⟨l, hl, h1⟩ | ⟨r, hr, h1⟩
  · exact Or.inl h1
  · exact Or.inr ⟨l, by simp [Node.children, hl], h1⟩
  · exact Or.inr ⟨r, by simp [Node.children, hr], h1⟩

theorem mem_nextStack (stack : List Node) (node n : Node) (h : n ∈ nextStack stack node) :
    n ∈ stack ∨ n = node := by
  unfold nextStack at h
  rcases List.mem_append.mp h with h1 | h1
  · left
    split_ifs at h1
    · exact List.mem_of_mem_take h1
    · exact List.mem_of_mem_take h1
    · exact h1
  · exact Or.inr (List.mem_singleton.mp h1)

theorem Add_StackInv (env : Env) (w : World) (r : Option ExportNode) (h : StackInv env w) :
    StackInv env (Add env w r).2 := by
  cases hres : (Add env w r).1 with
  | some e => rw [Add_error_heap env w r e hres]; exact h
  | none =>
    obtain ⟨t, e, buf, _, _, _, hval, _, hw⟩ := Add_success_inv env w r hres
    rw [hw]
    have hcons : ∀ n ∈ w.imp.stack, n.Consistent :=
      fun n hn => (h n hn n (Node.self_mem_nodes n)).1
    have hnode := buildNode_consistent env w.imp.stack e hcons hval
    have hch := (buildNode_children env w.imp.stack e).2
    intro n hn m hm
    simp only [Batch.Set] at hn ⊢
    have grow : ∀ x : Node, (∃ v, (env.nodeKey x.hash, v) ∈ w.imp.batch.ops) →
        ∃ v, (env.nodeKey x.hash, v) ∈ w.imp.batch.ops
          ++ [(env.nodeKey (buildNode env w.imp.stack e).hash, some buf)] :=
      fun x ⟨v, hv⟩ => ⟨v, List.mem_append_left _ hv⟩
    have old : ∀ n ∈ w.imp.stack, ∀ m ∈ n.nodes,
        m.Consistent ∧ (∃ v, (env.nodeKey m.hash, v) ∈ w.imp.batch.ops
            ++ [(env.nodeKey (buildNode env w.imp.stack e).hash, some buf)])
          ∧ ∀ c ∈ m.children, ∃ v, (env.nodeKey c.hash, v) ∈ w.imp.batch.ops
            ++ [(env.nodeKey (buildNode env w.imp.stack e).hash, some buf)] :=
      fun n hn m hm =>
        ⟨(h n hn m hm).1, grow m (h n hn m hm).2.1, fun c hc => grow c ((h n hn m hm).2.2 c hc)⟩
    rcases mem_nextStack _ _ _ hn with hn1 | rfl
    · exact old n hn1 m hm
    · rcases Node.mem_nodes_of_child m _ hm with rfl | ⟨c, hc, hmc⟩
      · refine ⟨hnode, ⟨some buf, by simp⟩, fun c hc => ?_⟩
        exact grow c (h c (hch c hc).1 c (Node.self_mem_nodes c)).2.1
      · exact old c (hch c hc).1 m hmc

theorem AddAll_StackInv (env : Env) (rs : List (Option ExportNode)) :
    ∀ w : World, StackInv env w → StackInv env (AddAll env w rs).2 := by
  induction rs with
  | nil => intro w h; exact h
  | cons r rs ih => intro w h; exact ih (Add env w r).2 (Add_StackInv env w r h)

theorem Fresh_StackInv (env : Env) (w : World) (h : Fresh env w) : StackInv env w := by
  obtain ⟨version, hv⟩ := Fresh_imp env w h
  intro n hn
  rw [hv] at hn
  simp at hn

theorem Reachable_StackInv (env : Env) (w : World) (h : Reachable env w) : StackInv env w := by
  obtain ⟨w0, rs, hf, rfl⟩ := h
  exact AddAll_StackInv env rs w0 (Fresh_StackInv env w0 hf)

/-! ## Close -/

theorem Commit_success_form (env : Env) (w : World) (h : (Commit env w).1 = none) :
    ∃ x, (Commit env w).2 = Close x := by
  cases ht : w.imp.tree with
  | none => rw [Commit_closed env w ht] at h; cases h
  | some t =>
    by_cases hlen : 2 < w.imp.stack.length
    · rw [Commit_structural env w t ht hlen] at h; cases h
    · rw [Commit_open env w t ht hlen] at h ⊢
      rcases commitFlush_cases env { w with imp := { w.imp with batch := flushBatch env w } }
        with ⟨e1, _, hc⟩ | ⟨store, e1, _, _, hc⟩ | ⟨store, _, _, hc⟩
          | ⟨store, e1, _, _, hc⟩ | ⟨store, last, _, _, hc⟩
      · rw [hc] at h; cases h
      · rw [hc] at h; cases h
      · rw [hc]; exact ⟨_, rfl⟩
      · rw [hc] at h; cases h
      · rw [hc]; exact ⟨_, rfl⟩

/-- C11. `Close` is idempotent: `Close` has no error result and is defined on every heap
(open, closed, or left by a successful `Commit`); it detaches the tree and discards the
pending writes, touching neither the Tree Handle nor the stack; calling it twice leaves the
same heap as calling it once, and after a successful `Commit` it changes nothing. -/
theorem Close_idempotent (env : Env) (w : World) :
    Close (Close w) = Close w
      ∧ (Close w).imp.tree = none
      ∧ (Close w).imp.batch.ops = []
      ∧ (Close w).mtree = w.mtree
      ∧ (Close w).imp.stack = w.imp.stack
      ∧ ((Commit env w).1 = none → Close (Commit env w).2 = (Commit env w).2) := by
  refine ⟨rfl, rfl, rfl, rfl, rfl, fun h => ?_⟩
  obtain ⟨x, hx⟩ := Commit_success_form env w h
  rw [hx]
  rfl

/-- Witness for C11: the `Commit` of the scenario succeeds, and `Close` after it leaves the
heap as it is. -/
theorem Close_idempotent_witness :
    (Commit demoEnv scenarioWorld).1 = none
      ∧ Close (Commit demoEnv scenarioWorld).2 = (Commit demoEnv scenarioWorld).2 :=
  have hs : (Commit demoEnv scenarioWorld).1 = none := by decide
  ⟨hs, (Close_idempotent demoEnv scenarioWorld).2.2.2.2.2 hs⟩

/-! ## Child selection -/

theorem ptrHeightLt_iff (p : Option Node) (h : Int) :
    ptrHeightLt p h = true ↔ ∃ n, p = some n ∧ n.height < h := by
  cases p <;> simp [ptrHeightLt]

theorem TopTwoBelow_iff (stack : List Node) (h : Int) :
    TopTwoBelow stack h ↔ (stack.length ≥ 2 ∧ ptrHeightLt stack[stack.length - 1]? h = true
      ∧ ptrHeightLt stack[stack.length - 2]? h = true) := by
  unfold TopTwoBelow
  rw [ptrHeightLt_iff, ptrHeightLt_iff]
  constructor
  · rintro ⟨h2, a, b, ha, hb, hah, hbh⟩
    exact ⟨h2, ⟨b, hb, hbh⟩, ⟨a, ha, hah⟩⟩
  · rintro ⟨h2, ⟨b, hb, hbh⟩, ⟨a, ha, hah⟩⟩
    exact ⟨h2, a, b, ha, hb, hah, hbh⟩

theorem TopBelow_iff (stack : List Node) (h : Int) :
    TopBelow stack h ↔ (stack.length ≥ 1 ∧ ptrHeightLt stack[stack.length - 1]? h = true) := by
  unfold TopBelow
  rw [ptrHeightLt_iff]

/-- The children chosen by the first switch of `Add`, case by case. -/
theorem attachChildren_select (stack : List Node) (node : Node)
    (hl : node.leftNode = none) (hr : node.rightNode = none) :
    (TopTwoBelow stack node.height →
        (attachChildren stack node).leftNode = stack[stack.length - 2]?
          ∧ (attachChildren stack node).rightNode = stack[stack.length - 1]?)
      ∧ (¬ TopTwoBelow stack node.height → TopBelow stack node.height →
        (attachChildren stack node).leftNode = stack[stack.length - 1]?
          ∧ (attachChildren stack node).rightNode = none)
      ∧ (¬ TopTwoBelow stack node.height → ¬ TopBelow stack node.height →
        (attachChildren stack node).leftNode = none
          ∧ (attachChildren stack node).rightNode = none) := by
  rw [TopTwoBelow_iff, TopBelow_iff]
  unfold attachChildren
  refine ⟨fun h1 => ?_, fun h1 h2 => ?_, fun h1 h2 => ?_⟩
  · simp only [if_pos h1]
    simp
  · simp only [if_neg h1, if_pos h2]
    simp [hr]
  · simp only [if_neg h1, if_neg h2]
    exact ⟨hl, hr⟩

/-- C12. Child selection by height only: when `Add` succeeds on a record of height `h`, the
node it pushes (the last entry of the new stack) has (i) the second-from-top entry as left
child and the top entry as right child if the stack has at least two entries and the top two
both have height below `h`; (ii) otherwise the top entry as left child and no right child if
the stack has at least one entry and the top one has height below `h`; (iii) otherwise no
children; and in every case its `leftHash` and `rightHash` are the hashes of the attached
children, nil where the child is absent. -/
theorem Add_child_selection (env : Env) (w : World) (e : ExportNode)
    (hok : (Add env w (some e)).1 = none) :
    (Add env w (some e)).2.imp.stack.getLast? = some (buildNode env w.imp.stack e)
      ∧ (TopTwoBelow w.imp.stack e.Height →
        (buildNode env w.imp.stack e).leftNode = w.imp.stack[w.imp.stack.length - 2]?
          ∧ (buildNode env w.imp.stack e).rightNode = w.imp.stack[w.imp.stack.length - 1]?)
      ∧ (¬ TopTwoBelow w.imp.stack e.Height → TopBelow w.imp.stack e.Height →
        (buildNode env w.imp.stack e).leftNode = w.imp.stack[w.imp.stack.length - 1]?
          ∧ (buildNode env w.imp.stack e).rightNode = none)
      ∧ (¬ TopTwoBelow w.imp.stack e.Height → ¬ TopBelow w.imp.stack e.Height →
        (buildNode env w.imp.stack e).leftNode = none
          ∧ (buildNode env w.imp.stack e).rightNode = none)
      ∧ (buildNode env w.imp.stack e).leftHash = ptrHash (buildNode env w.imp.stack e).leftNode
      ∧ (buildNode env w.imp.stack e).rightHash
          = ptrHash (buildNode env w.imp.stack e).rightNode := by
  obtain ⟨t, e1, buf, _, he, _, _, _, hw⟩ := Add_success_inv env w (some e) hok
  cases he
  obtain ⟨f1, f2, _, _, _⟩ := buildNode_fields env w.imp.stack e
  have hsel := attachChildren_select w.imp.stack
    (Node.mk e.Key e.Value e.Version e.Height 0 none none none none none) rfl rfl
  rw [← f1, ← f2] at hsel
  refine ⟨?_, hsel.1, hsel.2.1, hsel.2.2, ?_⟩
  · rw [hw]
    simp [nextStack]
  · rcases buildNode_cases env w.imp.stack e with ⟨s, a, b, _, _, _, hc⟩ | ⟨s, b, _, _, hc⟩ | hc
      <;> rw [hc] <;> simp [Node._hash, ptrHash]

/-- Witness for C12: on the stack of the two leaves `a` and `b`, the record `m` of height 1
gets the second-from-top entry `a` as left child and the top entry `b` as right child. -/
theorem Add_child_selection_witness :
    twoLeavesWorld.imp.stack = [leafA, leafB]
      ∧ (buildNode demoEnv twoLeavesWorld.imp.stack recM).leftNode = some leafA
      ∧ (buildNode demoEnv twoLeavesWorld.imp.stack recM).rightNode = some leafB :=
  have h := (Add_child_selection demoEnv twoLeavesWorld recM (by decide)).2.1
    ⟨by decide, leafA, leafB, rfl, rfl, by decide, by decide⟩
  ⟨rfl, h.1, h.2⟩

/-! ## Invariants of the reconstructed nodes -/

/-- C13. Node size invariant: in every heap reachable from a fresh importer by calls of
`Add`, every node on the stack and every descendant of it has height at least 0, has height
0 exactly when it has no children, has size at least 1, and has size 1 if its height is 0
and otherwise the sum of the sizes of its children, an absent child counting 0. -/
theorem stack_nodes_sized (env : Env) (w : World) (h : Reachable env w) :
    ∀ n ∈ w.imp.stack, ∀ m ∈ n.nodes,
      0 ≤ m.height
        ∧ (m.height = 0 ↔ m.leftNode = none ∧ m.rightNode = none)
        ∧ 1 ≤ m.size
        ∧ m.size = (if m.height = 0 then 1 else ptrSize m.leftNode + ptrSize m.rightNode) := by
  intro n hn m hm
  obtain ⟨⟨h1, h2, h3, _, h5, _⟩, _⟩ := Reachable_StackInv env w h n hn m hm
  exact ⟨h1, h2, h3, h5⟩

/-- Witness for C13: in the scenario the root `m` on the stack has height 1 and size
2 = 1 + 1, and its descendant `a` has height 0, no children and size 1. -/
theorem stack_nodes_sized_witness :
    (rootM.height = 1 ∧ rootM.size = 2
        ∧ rootM.size
          = (if rootM.height = 0 then 1 else ptrSize rootM.leftNode + ptrSize rootM.rightNode))
      ∧ (leafA.height = 0 ↔ leafA.leftNode = none ∧ leafA.rightNode = none)
      ∧ 1 ≤ leafA.size :=
  have hr : Reachable demoEnv scenarioWorld :=
    ⟨demoWorld, [some recA, some recB, some recM], ⟨5, rfl⟩, rfl⟩
  have h1 := stack_nodes_sized demoEnv scenarioWorld hr rootM (List.mem_singleton.mpr rfl)
    rootM (Node.self_mem_nodes rootM)
  have h2 := stack_nodes_sized demoEnv scenarioWorld hr rootM (List.mem_singleton.mpr rfl)
    leafA (show leafA ∈ [rootM, leafA, leafB] from List.mem_cons_of_mem _ (List.mem_cons_self _ _))
  ⟨⟨by decide, by decide, h1.2.2.2⟩, h2.2.1, h2.2.2.1⟩

/-- C14. Height ordering invariant: in every heap reachable from a fresh importer by calls
of `Add`, for every node on the stack and every descendant of it, each child that is present
has height strictly below its parent's; and whatever record comes next, the children `Add`
attaches to the node it builds are stack entries of height strictly below the node's
declared height. -/
theorem child_heights_below (env : Env) (w : World) (h : Reachable env w) :
    (∀ n ∈ w.imp.stack, ∀ m ∈ n.nodes, ∀ c ∈ m.children, c.height < m.height)
      ∧ ∀ e : ExportNode, (buildNode env w.imp.stack e).height = e.Height
        ∧ ∀ c ∈ (buildNode env w.imp.stack e).children,
          c ∈ w.imp.stack ∧ c.height < e.Height := by
  refine ⟨fun n hn m hm => ?_, fun e => buildNode_children env w.imp.stack e⟩
  obtain ⟨⟨_, _, _, _, _, h6, _⟩, _⟩ := Reachable_StackInv env w h n hn m hm
  exact h6

/-- Witness for C14: in the scenario both children of the root `m`, of heights 0, lie below
its height 1. -/
theorem child_heights_below_witness :
    rootM.children = [leafA, leafB] ∧ leafA.height < rootM.height
      ∧ leafB.height < rootM.height :=
  have hr : Reachable demoEnv scenarioWorld :=
    ⟨demoWorld, [some recA, some recB, some recM], ⟨5, rfl⟩, rfl⟩
  have h := (child_heights_below demoEnv scenarioWorld hr).1 rootM (List.mem_singleton.mpr rfl)
    rootM (Node.self_mem_nodes rootM)
  ⟨rfl, h leafA (show leafA ∈ [leafA, leafB] from List.mem_cons_self _ _),
    h leafB (show leafB ∈ [leafA, leafB] from List.mem_cons_of_mem _ (List.mem_cons_self _ _))⟩

/-! ## Leaves are counted once -/

theorem children_size_sum (n : Node) :
    (n.children.map Node.size).sum = ptrSize n.leftNode + ptrSize n.rightNode := by
  unfold Node.children
  cases n.leftNode <;> cases n.rightNode <;> simp [ptrSize]

theorem StackInv_hashed (env : Env) (w : World) (h : StackInv env w) :
    ∀ n ∈ w.imp.stack, n.hash ≠ none :=
  fun n hn => (h n hn n (Node.self_mem_nodes n)).1.2.2.2.2.2.2.1

theorem Add_size_sum (env : Env) (w : World) (r : Option ExportNode) (h : StackInv env w) :
    stackSize (Add env w r).2 = stackSize w + leafSuccesses [r] [(Add env w r).1] := by
  cases hres : (Add env w r).1 with
  | some e =>
    rw [Add_error_heap env w r e hres]
    cases r <;> simp [leafSuccesses]
  | none =>
    obtain ⟨t, e, buf, _, hr, _, hval, _, hw⟩ := Add_success_inv env w r hres
    subst hr
    obtain ⟨_, hsplit, hnext⟩ := nextStack_buildNode env w.imp.stack e (StackInv_hashed env w h)
    generalize List.take (w.imp.stack.length - (buildNode env w.imp.stack e).children.length)
      w.imp.stack = pre at hsplit hnext
    have hinv := Add_StackInv env w (some e) h
    rw [hw] at hinv ⊢
    have hnode : (buildNode env w.imp.stack e).Consistent :=
      (hinv _ (by simp [nextStack]) _ (Node.self_mem_nodes _)).1
    obtain ⟨_, hiff, _, _, hsz, _⟩ := hnode
    have hh := (buildNode_children env w.imp.stack e).1
    have hold := congrArg (fun l => (l.map Node.size).sum) hsplit
    simp only [List.map_append, List.sum_append, children_size_sum] at hold
    unfold stackSize
    simp only [hnext, List.map_append, List.sum_append, List.map_cons, List.map_nil,
      List.sum_cons, List.sum_nil, add_zero, leafSuccesses]
    rw [hsz, hh]
    by_cases h0 : e.Height = 0
    · have hnc := hiff.mp (hh.trans h0)
      rw [hnc.1, hnc.2] at hold
      simp only [ptrSize, add_zero] at hold
      simp [h0]
      omega
    · simp [h0]
      omega

theorem leafSuccesses_cons (r : Option ExportNode) (x : Option Err)
    (rs : List (Option ExportNode)) (es : List (Option Err)) :
    leafSuccesses (r :: rs) (x :: es) = leafSuccesses [r] [x] + leafSuccesses rs es := by
  cases r <;> cases x <;> simp [leafSuccesses]

theorem AddAll_size_sum (env : Env) (rs : List (Option ExportNode)) :
    ∀ w : World, StackInv env w →
      stackSize (AddAll env w rs).2 = stackSize w + leafSuccesses rs (AddAll env w rs).1 := by
  induction rs with
  | nil => intro w _; simp [AddAll, leafSuccesses]
  | cons r rs ih =>
    intro w h
    have h1 := Add_size_sum env w r h
    have h2 := ih (Add env w r).2 (Add_StackInv env w r h)
    show stackSize (AddAll env (Add env w r).2 rs).2
      = stackSize w + leafSuccesses (r :: rs) ((Add env w r).1 :: (AddAll env (Add env w r).2 rs).1)
    rw [leafSuccesses_cons, h2, h1]
    push_cast
    ring

/-- C16. No leaf is lost or counted twice: for a fresh importer and every sequence of
records fed to `Add`, the sum of the sizes of the nodes on the stack afterwards equals the
number of records of height 0 on which `Add` succeeded. -/
theorem leaves_counted (env : Env) (w0 : World) (rs : List (Option ExportNode))
    (h : Fresh env w0) :
    ((AddAll env w0 rs).2.imp.stack.map Node.size).sum
      = (leafSuccesses rs (AddAll env w0 rs).1 : Int) := by
  have h1 := AddAll_size_sum env rs w0 (Fresh_StackInv env w0 h)
  obtain ⟨version, hv⟩ := Fresh_imp env w0 h
  have h0 : stackSize w0 = 0 := by
    unfold stackSize
    rw [hv]
    rfl
  rw [h0, zero_add] at h1
  exact h1

/-- Witness for C16: after the five records of the stream P1, three of them leaves, the
sizes on the stack sum to 3. -/
theorem leaves_counted_witness :
    ((AddAll demoEnv demoWorld (p1Root.postOrder.map some)).2.imp.stack.map Node.size).sum
      = 3 :=
  (leaves_counted demoEnv demoWorld (p1Root.postOrder.map some) ⟨5, rfl⟩).trans (by decide)

/-! ## Every node is buffered -/

/-- C17. Every reconstructed node is buffered: in every heap reachable from a fresh
importer by calls of `Add`, every node on the stack has a non-nil hash, and for every node
on the stack and every descendant of it the pending batch holds a write under
`nodeKey(hash of that node)`, and also under `nodeKey` of each child hash the node
references; so the root written by `Commit` never references a hash missing from the
batch. -/
theorem nodes_buffered (env : Env) (w : World) (h : Reachable env w) :
    (∀ n ∈ w.imp.stack, n.hash ≠ none)
      ∧ ∀ n ∈ w.imp.stack, ∀ m ∈ n.nodes,
        (∃ v, (env.nodeKey m.hash, v) ∈ w.imp.batch.ops)
          ∧ (m.leftHash ≠ none → ∃ v, (env.nodeKey m.leftHash, v) ∈ w.imp.batch.ops)
          ∧ (m.rightHash ≠ none → ∃ v, (env.nodeKey m.rightHash, v) ∈ w.imp.batch.ops) := by
  have hinv := Reachable_StackInv env w h
  refine ⟨StackInv_hashed env w hinv, fun n hn m hm => ?_⟩
  obtain ⟨⟨_, _, _, _, _, _, _, hl, hr⟩, hm1, hch⟩ := hinv n hn m hm
  refine ⟨hm1, fun hne => ?_, fun hne => ?_⟩
  · rw [hl] at hne ⊢
    cases hln : m.leftNode with
    | none => rw [hln] at hne; exact absurd rfl hne
    | some c => exact hch c (by simp [Node.children, hln])
  · rw [hr] at hne ⊢
    cases hrn : m.rightNode with
    | none => rw [hrn] at hne; exact absurd rfl hne
    | some c => exact hch c (by simp [Node.children, hrn])

/-- Witness for C17: in the scenario the batch holds a write under the key of the root `m`
and under the key of its left child hash. -/
theorem nodes_buffered_witness :
    (∃ v, (demoEnv.nodeKey rootM.hash, v) ∈ scenarioWorld.imp.batch.ops)
      ∧ ∃ v, (demoEnv.nodeKey rootM.leftHash, v) ∈ scenarioWorld.imp.batch.ops :=
  have hr : Reachable demoEnv scenarioWorld :=
    ⟨demoWorld, [some recA, some recB, some recM], ⟨5, rfl⟩, rfl⟩
  have h := (nodes_buffered demoEnv scenarioWorld hr).2 rootM (List.mem_singleton.mpr rfl)
    rootM (Node.self_mem_nodes rootM)
  ⟨h.1, h.2.1 (by decide)⟩

/-! ## The empty stack -/

theorem Add_stack_ne_nil (env : Env) (w : World) (r : Option ExportNode)
    (h : (Add env w r).1 = none ∨ w.imp.stack ≠ []) : (Add env w r).2.imp.stack ≠ [] := by
  cases hres : (Add env w r).1 with
  | some e =>
    rw [Add_error_heap env w r e hres]
    rcases h with h | h
    · rw [hres] at h; cases h
    · exact h
  | none =>
    obtain ⟨t, e, buf, _, _, _, _, _, hw⟩ := Add_success_inv env w r hres
    rw [hw]
    simp [nextStack]

theorem AddAll_stack_ne_nil (env : Env) (rs : List (Option ExportNode)) :
    ∀ w : World, w.imp.stack ≠ [] → (AddAll env w rs).2.imp.stack ≠ [] := by
  induction rs with
  | nil => intro w h; exact h
  | cons r rs ih => intro w h; exact ih _ (Add_stack_ne_nil env w r (Or.inr h))

theorem AddAll_all_errors (env : Env) (rs : List (Option ExportNode)) :
    ∀ w : World, (∀ x ∈ (AddAll env w rs).1, x ≠ none) → (AddAll env w rs).2 = w := by
  induction rs with
  | nil => intro w _; rfl
  | cons r rs ih =>
    intro w h
    have h1 : (Add env w r).1 ≠ none := h _ (List.mem_cons_self _ _)
    obtain ⟨e, he⟩ := Option.ne_none_iff_exists'.mp h1
    have hw := Add_error_heap env w r e he
    have h2 : ∀ x ∈ (AddAll env (Add env w r).2 rs).1, x ≠ none :=
      fun x hx => h x (List.mem_cons_of_mem _ hx)
    have h3 := ih (Add env w r).2 h2
    rw [hw] at h3
    show (AddAll env (Add env w r).2 rs).2 = w
    rw [hw]
    exact h3

theorem AddAll_stack_nil_iff (env : Env) (rs : List (Option ExportNode)) :
    ∀ w : World, (AddAll env w rs).2.imp.stack = []
      ↔ w.imp.stack = [] ∧ ∀ x ∈ (AddAll env w rs).1, x ≠ none := by
  induction rs with
  | nil => intro w; simp [AddAll]
  | cons r rs ih =>
    intro w
    constructor
    · intro h
      have h1 := (ih (Add env w r).2).mp h
      cases hres : (Add env w r).1 with
      | none => exact absurd h1.1 (Add_stack_ne_nil env w r (Or.inl hres))
      | some e =>
        have hw := Add_error_heap env w r e hres
        refine ⟨by rw [← hw]; exact h1.1, fun x hx => ?_⟩
        rcases List.mem_cons.mp hx with hx1 | hx1
        · rw [hx1, hres]; simp
        · exact h1.2 x hx1
    · rintro ⟨h1, h2⟩
      rw [AddAll_all_errors env (r :: rs) w h2]
      exact h1

/-- C18. The stack is empty only for an empty import: for a fresh importer and every
sequence of calls of `Add`, the stack is empty afterwards if and only if no call succeeded;
and then no node was buffered either, so `Commit` leaves out the root-pointer write (an
empty stack) only over an empty batch. -/
theorem stack_empty_iff_no_success (env : Env) (w0 : World) (rs : List (Option ExportNode))
    (h : Fresh env w0) :
    ((AddAll env w0 rs).2.imp.stack = [] ↔ ∀ x ∈ (AddAll env w0 rs).1, x ≠ none)
      ∧ ((AddAll env w0 rs).2.imp.stack = [] →
        (AddAll env w0 rs).2.imp.batch.ops = []
          ∧ flushBatch env (AddAll env w0 rs).2 = (AddAll env w0 rs).2.imp.batch) := by
  obtain ⟨version, hv⟩ := Fresh_imp env w0 h
  have hs : w0.imp.stack = [] := by rw [hv]
  have hiff := AddAll_stack_nil_iff env rs w0
  refine ⟨⟨fun h1 => (hiff.mp h1).2, fun h1 => hiff.mpr ⟨hs, h1⟩⟩, fun h1 => ?_⟩
  have hw := AddAll_all_errors env rs w0 (hiff.mp h1).2
  rw [hw]
  refine ⟨by rw [hv], ?_⟩
  simp [flushBatch, hs]

/-- Witness for C18: a fresh importer fed one record of version 6, above the target 5, sees
that call fail and keeps an empty stack; fed the leaf `a`, it has a stack that is not
empty. -/
theorem stack_empty_iff_no_success_witness :
    (AddAll demoEnv demoWorld [some ⟨some [100], some [52], 6, 0⟩]).2.imp.stack = []
      ∧ (AddAll demoEnv demoWorld [some recA]).2.imp.stack ≠ [] :=
  ⟨(stack_empty_iff_no_success demoEnv demoWorld [some ⟨some [100], some [52], 6, 0⟩]
      ⟨5, rfl⟩).1.mpr (by decide),
    fun hnil => absurd
      ((stack_empty_iff_no_success demoEnv demoWorld [some recA] ⟨5, rfl⟩).1.mp hnil)
      (by decide)⟩

/-! ## Single-child nodes -/

/-- C15. Single-child nodes are not reconstructed faithfully: the tree `lopsidedRoot` (root
of height 2, left leaf `a`, right child `X` of height 1 whose only child is the leaf `b`)
has the post-order records `a, b, X, root`; fed to a fresh importer, every `Add` succeeds
and exactly one stack entry is left, but it is `rebuiltRoot`, not the original: `X` has
taken `a` as left child and `b` as right child, the root has `X` as its only child, and the
root hash differs from the original one. -/
theorem single_child_not_faithful :
    (lopsidedRoot.leftNode = some leafA ∧ lopsidedRoot.rightNode = some onlyLeftX
        ∧ onlyLeftX.leftNode = some leafB ∧ onlyLeftX.rightNode = none)
      ∧ lopsidedRoot.postOrder.map ExportNode.Height = [0, 0, 1, 2]
      ∧ (AddAll demoEnv demoWorld (lopsidedRoot.postOrder.map some)).1
          = [none, none, none, none]
      ∧ (AddAll demoEnv demoWorld (lopsidedRoot.postOrder.map some)).2.imp.stack
          = [rebuiltRoot]
      ∧ (rebuiltRoot.leftNode = some rebuiltX ∧ rebuiltRoot.rightNode = none
        ∧ rebuiltX.leftNode = some leafA ∧ rebuiltX.rightNode = some leafB)
      ∧ rebuiltRoot.hash ≠ lopsidedRoot.hash :=
  ⟨⟨rfl, rfl, rfl, rfl⟩, by decide, by decide, rfl, ⟨rfl, rfl, rfl, rfl⟩, by decide⟩

end Iavl
